import Mathlib

/-!
# Verification of the traffic simulation agents (`InteraccionAgentes.py`)

Shallow embedding of the agent decision-and-control engine: the adaptive
traffic-light controller (`TrafficLightAgent`) and the personality-driven
vehicle agent (`CarAgent`), together with the model tick
(`TrafficModel.step` under mesa's `SimultaneousActivation`, whose
`advance` phase is a no-op here, so agents execute sequentially in
insertion order: lights first, then cars).

Modelling conventions:
* grid positions are integer pairs; bounds checks are explicit;
* Python floats are idealised as `Rat` (all constants in the source are
  exact decimals); `happiness` is a `Rat` (payoffs are rational),
  `stress` stays a `Nat` (every reachable update is integral: the
  source's `'patient'` branch, the only fractional one, is dead code for
  the five personalities);
* `random.random()` draws are threaded as an explicit list of rationals
  (`RS`); `random.choice`/`random.randint`/`random.randrange`/
  `random.shuffle` draws as a list of naturals (`NS`).  The source draws
  personality, strategy and risk from the *global* `random` module and
  spawn shuffles from the model-owned `self.random`; the two streams are
  kept separate to reflect that;
* the BFS `while frontier:` loop of `find_path` is given fuel
  `width*height + 1`; mark-on-enqueue bounds the number of loop
  iterations by the number of grid cells plus one, so the fuel is never
  exhausted (the sufficiency is what the pathfinding theorems prove);
* Python `None`-vs-`[]` for paths: both are falsy and the source only
  ever tests truthiness before use, so `find_path`'s `None` is embedded
  as `Option` and collapsed with `.getD []` exactly where the source
  stores it.
-/

namespace Traffic

/-- A grid position `(x, y)`. -/
abbrev Pos := Int × Int

/-- The closed set of five personalities assigned in `CarAgent.__init__`. -/
inductive Personality where
  | cooperative
  | aggressive
  | cautious
  | opportunistic
  | reckless
deriving DecidableEq, Repr

instance : Inhabited Personality := ⟨.cooperative⟩

/-- Vehicle emotional states (`self.state` of `CarAgent`). -/
inductive CarState where
  | normal
  | happy
  | angry
  | impatient
deriving DecidableEq, Repr

/-- Traffic-light states. -/
inductive LightState where
  | red
  | yellow
  | green
deriving DecidableEq, Repr

/-- Negotiation strategies (the strings `'yield'` / `'push_through'`). -/
inductive Strategy where
  | yield
  | push_through
deriving DecidableEq, Repr

/-- One entry of `memory['traffic_patterns']` (recorded on arrival). -/
structure TripRecord where
  path : List Pos
  time : Nat
  stress_level : Nat
deriving DecidableEq, Repr

/-- The `self.memory` dictionary of `CarAgent`. -/
structure Memory where
  successful_negotiations : Nat
  failed_negotiations : Nat
  traffic_patterns : List (Pos × TripRecord)
  risky_moves_outcome : List Nat
deriving DecidableEq, Repr

/-- The mutable state of a `CarAgent`. -/
structure Car where
  unique_id : Nat
  position : Pos
  destination : Pos
  path : List Pos
  traffic_light_detection_range : Nat
  personality : Personality
  state : CarState
  happiness : Rat
  stress : Nat
  patience : Nat
  waiting_time : Nat
  color : String
  risk_threshold : Rat
  learning_rate : Rat
  approaching_light : Option Pos
  eta_to_light : Option Nat
  memory : Memory
deriving DecidableEq, Repr

/-- The mutable state of a `TrafficLightAgent`.  `approaching_cars` is the
dict `unique_id ↦ {eta, position}`. -/
structure TrafficLight where
  unique_id : Nat
  position : Pos
  state : LightState
  color : String
  timer : Nat
  approaching_cars : List (Nat × Nat × Pos)
  min_green_time : Nat
  max_green_time : Nat
  detection_radius : Nat
deriving DecidableEq, Repr

/-- The model: grid dimensions, the scheduler's step counter, and the
agents in insertion order (lights first, then cars). -/
structure World where
  width : Nat
  height : Nat
  steps : Nat
  lights : List TrafficLight
  cars : List Car
deriving DecidableEq, Repr

instance : Inhabited Car :=
  ⟨⟨0, (0, 0), (0, 0), [], 3, .cooperative, .normal, 100, 0, 5, 0, "blue",
    mkRat 1 2, mkRat 1 10, none, none, ⟨0, 0, [], []⟩⟩⟩

instance : Inhabited TrafficLight :=
  ⟨⟨0, (0, 0), .yellow, "yellow", 0, [], 3, 10, 1⟩⟩

/-- Stream of `random.random()` draws (each in `[0,1)`). -/
abbrev RS := List Rat

/-- Stream of integer draws (`random.choice` indices, `randint`,
`randrange`, shuffle draws). -/
abbrev NS := List Nat

/-- Pop one `random.random()` draw. -/
def randFloat (r : RS) : Rat × RS := (r.headD 0, r.tail)

/-! Kernel-computable rational arithmetic.  Mathlib's `Rat.add`, `Rat.mul`
and `Rat.inv` are compiler intrinsics that the kernel cannot unfold, so
concrete runs could not be evaluated inside proofs with them.  The
wrappers below compute the same values through `mkRat` (which the kernel
does reduce); the bridge lemmas `radd_eq`, `rsub_eq`, `rmul_eq` and
`rdiv_eq` below identify them with the ordinary field operations. -/

/-- Rational addition, computably. -/
def radd (a b : Rat) : Rat :=
  mkRat (a.num * (b.den : Int) + b.num * (a.den : Int)) (a.den * b.den)

/-- Rational subtraction, computably. -/
def rsub (a b : Rat) : Rat :=
  mkRat (a.num * (b.den : Int) - b.num * (a.den : Int)) (a.den * b.den)

/-- Rational multiplication, computably. -/
def rmul (a b : Rat) : Rat := mkRat (a.num * b.num) (a.den * b.den)

/-- Rational division, computably (division by zero yields zero, as for
`/` on `Rat`). -/
def rdiv (a b : Rat) : Rat :=
  mkRat (a.num * (b.den : Int) * Int.sign b.num) (a.den * b.num.natAbs)

/-- `0 <= pos[0] < width and 0 <= pos[1] < height`. -/
def inBounds (w : World) (pos : Pos) : Prop :=
  0 ≤ pos.1 ∧ pos.1 < (w.width : Int) ∧ 0 ≤ pos.2 ∧ pos.2 < (w.height : Int)

instance (w : World) (pos : Pos) : Decidable (inBounds w pos) := by
  unfold inBounds; infer_instance

/-- First `TrafficLightAgent` among the cell contents at `pos`. -/
def lightAt (w : World) (pos : Pos) : Option TrafficLight :=
  w.lights.find? (fun tl => tl.position = pos)

/-- First `CarAgent` among the cell contents at `pos`. -/
def carAt (w : World) (pos : Pos) : Option Car :=
  w.cars.find? (fun c => c.position = pos)

/-- `any(isinstance(agent, CarAgent) for agent in cell_contents)`. -/
def anyCarAt (w : World) (pos : Pos) : Prop :=
  ∃ c ∈ w.cars, c.position = pos

instance (w : World) (pos : Pos) : Decidable (anyCarAt w pos) := by
  unfold anyCarAt; infer_instance

/-- Python dict assignment `d[k] = v`: replace in place, or append. -/
def dictInsert {β : Type} (d : List (Nat × β)) (k : Nat) (v : β) : List (Nat × β) :=
  if d.any (fun e => e.1 = k) then
    d.map (fun e => if e.1 = k then (k, v) else e)
  else d ++ [(k, v)]

/-- Python dict lookup on a position-keyed dict. -/
def dictFindPos {β : Type} (d : List (Pos × β)) (k : Pos) : Option β :=
  (d.find? (fun e => e.1 = k)).map (fun e => e.2)

/-- Position-keyed dict assignment (for `memory['traffic_patterns']`). -/
def dictInsertPos {β : Type} (d : List (Pos × β)) (k : Pos) (v : β) : List (Pos × β) :=
  if d.any (fun e => e.1 = k) then
    d.map (fun e => if e.1 = k then (k, v) else e)
  else d ++ [(k, v)]

/-! ## `CarAgent`: pure helpers -/

/-- `CarAgent.get_initial_color`. -/
def get_initial_color (p : Personality) : String :=
  match p with
  | .cooperative => "blue"
  | .aggressive => "red"
  | .cautious => "green"
  | .opportunistic => "purple"
  | .reckless => "orange"

/-- The payoff matrices of `CarAgent.calculate_payoff` (pairs
`(self, other)`; the source takes component `[0]`). -/
def payoff_matrix (p : Personality) (ms os : Strategy) : Rat × Rat :=
  match p, ms, os with
  | .cooperative, .yield, .yield => (8, 8)
  | .cooperative, .yield, .push_through => (2, 6)
  | .cooperative, .push_through, .yield => (6, 2)
  | .cooperative, .push_through, .push_through => (-8, -8)
  | .aggressive, .yield, .yield => (4, 4)
  | .aggressive, .yield, .push_through => (-2, 12)
  | .aggressive, .push_through, .yield => (12, -2)
  | .aggressive, .push_through, .push_through => (-4, -4)
  | .cautious, .yield, .yield => (10, 10)
  | .cautious, .yield, .push_through => (5, 3)
  | .cautious, .push_through, .yield => (3, 5)
  | .cautious, .push_through, .push_through => (-10, -10)
  | .opportunistic, .yield, .yield => (6, 6)
  | .opportunistic, .yield, .push_through => (0, 8)
  | .opportunistic, .push_through, .yield => (8, 0)
  | .opportunistic, .push_through, .push_through => (-6, -6)
  | .reckless, .yield, .yield => (2, 2)
  | .reckless, .yield, .push_through => (-4, 14)
  | .reckless, .push_through, .yield => (14, -4)
  | .reckless, .push_through, .push_through => (0, 0)

/-- `CarAgent.calculate_payoff`. -/
def calculate_payoff (c : Car) (my_strategy other_strategy : Strategy) : Rat :=
  let base_payoff := (payoff_matrix c.personality my_strategy other_strategy).1
  let base_payoff :=
    if c.state = .angry then
      rmul base_payoff (if my_strategy = .push_through then mkRat 3 2 else mkRat 1 2)
    else if c.state = .happy then
      rmul base_payoff (if my_strategy = .yield then mkRat 6 5 else mkRat 4 5)
    else base_payoff
  let success_rate : Rat :=
    rdiv (c.memory.successful_negotiations : Rat)
      ((max 1 (c.memory.successful_negotiations + c.memory.failed_negotiations) : Nat) : Rat)
  rmul base_payoff (radd 1 (rmul (mkRat 1 5) success_rate))

/-- The base `{yield, push_through}` probabilities of
`CarAgent.get_strategy`, as a pair `(yield, push_through)`. -/
def strategy_probabilities (p : Personality) : Rat × Rat :=
  match p with
  | .cooperative => (mkRat 7 10, mkRat 3 10)
  | .aggressive => (mkRat 2 10, mkRat 8 10)
  | .cautious => (mkRat 8 10, mkRat 2 10)
  | .opportunistic => (mkRat 5 10, mkRat 5 10)
  | .reckless => (mkRat 1 10, mkRat 9 10)

/-- `CarAgent.get_strategy`.  The `other_agent` parameter is unused in the
source as well.  Angry state returns without consuming a draw. -/
def get_strategy (c : Car) (_other : Car) (r : RS) : Strategy × RS :=
  if c.state = .angry then (.push_through, r)
  else
    let probs := strategy_probabilities c.personality
    let probs :=
      if c.state = .impatient then
        (rsub probs.1 (mkRat 2 10), radd probs.2 (mkRat 2 10))
      else probs
    let stress_factor : Rat := rdiv (c.stress : Rat) 100
    let probs := (rsub probs.1 (rmul stress_factor (mkRat 3 10)),
                  radd probs.2 (rmul stress_factor (mkRat 3 10)))
    let total := radd probs.1 probs.2
    let probs := (rdiv probs.1 total, rdiv probs.2 total)
    let (x, r) := randFloat r
    (if x < probs.2 then .push_through else .yield, r)

/-- `CarAgent.update_state_parameters`. -/
def update_state_parameters (c : Car) : Car :=
  if c.state = .angry then
    { c with learning_rate := mkRat 2 10, risk_threshold := mkRat 7 10 }
  else if c.state = .happy then
    { c with learning_rate := mkRat 5 100, risk_threshold := mkRat 3 10 }
  else { c with learning_rate := mkRat 1 10, risk_threshold := mkRat 5 10 }

/-- `CarAgent.update_emotional_state`.  The stress decay reads the *old*
state; patience/color update every tick per branch; `learning_rate`/
`risk_threshold` only change on a state change. -/
def update_emotional_state (c : Car) : Car :=
  let stress_factor : Nat := if c.personality = .aggressive then 2 else 1
  let s := c.stress + c.waiting_time * stress_factor
  let s := min 100 (max 0 s)
  let stress_decay : Nat := if c.state = .happy then 2 else 1
  let s := max 0 (s - stress_decay)
  let (new_state, c) :=
    if c.happiness > 80 ∧ s < 30 then
      (CarState.happy, { c with color := "green", patience := min 8 (c.patience + 1) })
    else if c.happiness < 30 ∨ s > 70 then
      (CarState.angry, { c with color := "red", patience := max 1 (c.patience - 1) })
    else if c.waiting_time > c.patience then
      (CarState.impatient, { c with color := "orange" })
    else
      (CarState.normal, { c with color := get_initial_color c.personality })
  let c := { c with stress := s }
  if new_state ≠ c.state then
    update_state_parameters { c with state := new_state }
  else c

/-- `CarAgent.negotiate_passage`.  Returns
`(granted, self', other', stream)`; the opposing agent is only read
(its `get_strategy` mutates nothing), so `other' = other` by the shape
of the source. -/
def negotiate_passage (c other : Car) (r : RS) : Bool × Car × Car × RS :=
  let sr1 := get_strategy c other r
  let my_strategy := sr1.1
  let sr2 := get_strategy other c sr1.2
  let other_strategy := sr2.1
  let r := sr2.2
  let payoff := calculate_payoff c my_strategy other_strategy
  let c : Car :=
    if payoff > 0 then
      let c := { c with memory :=
        { c.memory with successful_negotiations := c.memory.successful_negotiations + 1 } }
      if my_strategy = .push_through then
        { c with memory :=
          { c.memory with risky_moves_outcome := c.memory.risky_moves_outcome ++ [1] } }
      else c
    else
      let c := { c with memory :=
        { c.memory with failed_negotiations := c.memory.failed_negotiations + 1 } }
      if my_strategy = .push_through then
        { c with memory :=
          { c.memory with risky_moves_outcome := c.memory.risky_moves_outcome ++ [0] } }
      else c
  let c : Car :=
    if c.memory.risky_moves_outcome.length > 10 then
      { c with memory :=
        { c.memory with risky_moves_outcome := c.memory.risky_moves_outcome.tail } }
    else c
  let c := { c with happiness := min 100 (max 0 (radd c.happiness payoff)) }
  (decide (payoff > 0), c, other, r)

/-! ## `CarAgent`: pathfinding -/

/-- `CarAgent.get_neighbors`: personality-biased candidate moves,
filtered to the grid. -/
def get_neighbors (w : World) (c : Car) (pos : Pos) : List Pos :=
  let x := pos.1
  let y := pos.2
  let possible_moves : List Pos :=
    match c.personality with
    | .aggressive =>
      (if x < c.destination.1 then [(x + 1, y)]
       else if x > c.destination.1 then [(x - 1, y)] else []) ++
      (if y < c.destination.2 then [(x, y + 1)]
       else if y > c.destination.2 then [(x, y - 1)] else [])
    | .cautious =>
      (if y < c.destination.2 then [(x, y + 1)]
       else if y > c.destination.2 then [(x, y - 1)] else []) ++
      (if x < c.destination.1 then [(x + 1, y)]
       else if x > c.destination.1 then [(x - 1, y)] else [])
    | _ => [(x + 1, y), (x - 1, y), (x, y + 1), (x, y - 1)]
  possible_moves.filter (fun p => inBounds w p)

/-- `CarAgent.is_valid_position`: in bounds and free of cars (traffic
lights do not block planning). -/
def is_valid_position (w : World) (pos : Pos) : Prop :=
  inBounds w pos ∧ ¬ anyCarAt w pos

instance (w : World) (pos : Pos) : Decidable (is_valid_position w pos) := by
  unfold is_valid_position; infer_instance

/-- The body of the `for next_pos in self.get_neighbors(current)` loop of
`CarAgent.find_path`: skip visited; always traverse traffic-light cells;
otherwise require `is_valid_position`.  The accumulator is
`(frontier, visited)`; enqueues go to the right of the deque. -/
def find_path_expand (w : World) (path : List Pos) (acc : List (List Pos) × List Pos)
    (next_pos : Pos) : List (List Pos) × List Pos :=
  if next_pos ∈ acc.2 then acc
  else if (lightAt w next_pos).isSome then
    (acc.1 ++ [path ++ [next_pos]], acc.2 ++ [next_pos])
  else if is_valid_position w next_pos then
    (acc.1 ++ [path ++ [next_pos]], acc.2 ++ [next_pos])
  else acc

/-- The `while frontier:` loop of `CarAgent.find_path`, with explicit
fuel.  Mark-on-enqueue keeps `visited` duplicate-free, so the loop runs
at most `width*height + 1` iterations; the top-level `find_path` passes
exactly that fuel, which is therefore never exhausted. -/
def bfsAux (w : World) (c : Car) : Nat → List (List Pos) → List Pos → Option (List Pos)
  | 0, _, _ => none
  | _ + 1, [], _ => none
  | fuel + 1, path :: rest, visited =>
    let current := path.getLastD (0, 0)
    if current = c.destination then some path
    else
      let fv := (get_neighbors w c current).foldl (find_path_expand w path) (rest, visited)
      bfsAux w c fuel fv.1 fv.2

/-- `CarAgent.find_path` (BFS from `position` to `destination`). -/
def find_path (w : World) (c : Car) : Option (List Pos) :=
  bfsAux w c (w.width * w.height + 1) [[c.position]] [c.position]

/-! ## `CarAgent`: traffic-light interaction -/

/-- `CarAgent.detect_traffic_light_ahead`: scan `(x+dx, y)` for
`dx = 1 .. traffic_light_detection_range` (only the x bound is checked,
as in the source) and return the first light found. -/
def detect_traffic_light_ahead (w : World) (c : Car) : Option TrafficLight :=
  ((List.range c.traffic_light_detection_range).map (fun i => (i : Int) + 1)).foldl
    (fun found dx =>
      match found with
      | some tl => some tl
      | none =>
        let check_pos : Pos := (c.position.1 + dx, c.position.2)
        if 0 ≤ check_pos.1 ∧ check_pos.1 < (w.width : Int) then lightAt w check_pos
        else none)
    none

/-- `CarAgent.calculate_eta_to_light`: straight-line distance along the
travel axis.  (The `None` guards of the source cannot fire here: the
light and the position are always present.) -/
def calculate_eta_to_light (c : Car) (light : TrafficLight) : Option Nat :=
  some (light.position.1 - c.position.1).natAbs

/-- `CarAgent.notify_traffic_light`.  `TrafficLightAgent` defines no
`register_approaching_car` method, so the source's
`hasattr(light, 'register_approaching_car')` guard is always false and
the light is never called: only the car's own tracking fields change. -/
def notify_traffic_light (w : World) (c : Car) : Car :=
  match detect_traffic_light_ahead w c with
  | none => c
  | some light =>
    if c.approaching_light ≠ some light.position ∨ c.eta_to_light = none then
      { c with approaching_light := some light.position,
               eta_to_light := calculate_eta_to_light c light }
    else c

/-! ## `CarAgent`: movement gates -/

/-- `CarAgent.can_move_to`: bounds, then cars, then the light gate
(reckless drivers may run red/yellow with a stress-driven draw; every
other personality stops on red or yellow). -/
def can_move_to (w : World) (c : Car) (pos : Pos) (r : RS) : Bool × RS :=
  if ¬ inBounds w pos then (false, r)
  else if anyCarAt w pos then (false, r)
  else
    match lightAt w pos with
    | none => (true, r)
    | some light =>
      if c.personality = .reckless then
        if light.state = .red then
          let risk_factor : Rat := rdiv (c.stress : Rat) 100
          let (x, r) := randFloat r
          if x > risk_factor then (false, r) else (true, r)
        else if light.state = .yellow then
          let risk_factor : Rat := rdiv (radd (c.stress : Rat) 20) 100
          let (x, r) := randFloat r
          if x > risk_factor then (false, r) else (true, r)
        else (true, r)
      else
        if light.state = .red ∨ light.state = .yellow then (false, r)
        else (true, r)

/-- `CarAgent.handle_traffic_light`: green passes; red blocks with a
penalty whose stress increment is *not* clamped; yellow blocks unless
reckless/aggressive win a stress-driven draw. -/
def handle_traffic_light (w : World) (c : Car) (next_pos : Pos) (r : RS) :
    Bool × Car × RS :=
  match lightAt w next_pos with
  | none => (true, c, r)
  | some traffic_light =>
    if traffic_light.state = .green then (true, c, r)
    else if traffic_light.state = .red then
      (false,
       { c with waiting_time := c.waiting_time + 1,
                happiness := max 0 (rsub c.happiness 5),
                stress := c.stress + (if c.personality = .aggressive then 2 else 1) },
       r)
    else if traffic_light.state = .yellow then
      if c.personality = .reckless then
        let risk_chance : Rat := min (mkRat 8 10) (radd (rdiv (c.stress : Rat) 100) (mkRat 3 10))
        let (x, r) := randFloat r
        (decide (x < risk_chance), c, r)
      else if c.personality = .aggressive then
        let risk_chance : Rat := min (mkRat 6 10) (radd (rdiv (c.stress : Rat) 100) (mkRat 2 10))
        let (x, r) := randFloat r
        (decide (x < risk_chance), c, r)
      else (false, c, r)
    else (true, c, r)

/-- `CarAgent.handle_car_interaction`: negotiate with the first car at
`next_pos`; on failure apply the blocked penalty.  The opposing car is
only read, so the world is not written back. -/
def handle_car_interaction (w : World) (c : Car) (next_pos : Pos) (r : RS) :
    Bool × Car × RS :=
  match carAt w next_pos with
  | none => (true, c, r)
  | some other_car =>
    let res := negotiate_passage c other_car r
    let negotiation_result := res.1
    let c := res.2.1
    let r := res.2.2.2
    if ¬ negotiation_result then
      (negotiation_result,
       { c with waiting_time := c.waiting_time + 1,
                happiness := max 0 (rsub c.happiness 3),
                stress := min 100 (c.stress + 2) },
       r)
    else (negotiation_result, c, r)

/-- `CarAgent.update_position_metrics`: commit the move, advance the
path, reset `waiting_time`, reward the move.  The forward-progress bonus
compares `next_pos[0]` against the *already updated* `self.position[0]`,
so its guard is never true. -/
def update_position_metrics (c : Car) (next_pos : Pos) : Car :=
  let c := { c with position := next_pos,
                    path := c.path.tail,
                    waiting_time := 0,
                    happiness := min 100 (radd c.happiness 5),
                    stress := max 0 (c.stress - 1) }
  if next_pos.1 > c.position.1 then
    { c with happiness := min 100 (radd c.happiness 2) }
  else c

/-- `CarAgent.arrive_at_destination`: arrival bonus plus a trip-memory
entry.  The agent is *not* removed from the grid or the schedule. -/
def arrive_at_destination (w : World) (c : Car) : Car :=
  let c := { c with happiness := min 100 (radd c.happiness 20),
                    stress := max 0 (c.stress - 10),
                    state := CarState.happy,
                    color := "green" }
  let entry : TripRecord := { path := c.path, time := w.steps, stress_level := c.stress }
  let mem : Memory := { c.memory with
    traffic_patterns := dictInsertPos c.memory.traffic_patterns c.destination entry }
  { c with memory := mem }

/-- `CarAgent.handle_blocked_movement`.  The `'patient'` branch of the
source (`stress += 0.5`) is unreachable for the five personalities.  On
excessive waiting the source stores `self.find_path()` directly (where
`None` and `[]` are behaviorally identical falsy values). -/
def handle_blocked_movement (w : World) (c : Car) : Car :=
  let c := { c with waiting_time := c.waiting_time + 1,
                    happiness := max 0 (rsub c.happiness 3),
                    stress := min 100 (c.stress + 2) }
  let c : Car :=
    if c.personality = .aggressive then { c with stress := c.stress + 2 } else c
  if c.waiting_time > c.patience * 2 then
    { c with path := (find_path w c).getD [] }
  else c

/-- The movement block at the tail of `CarAgent.step` (lines 573–593):
the gate chain (light, negotiation, occupancy) and the committed move. -/
def step_move_phase (w : World) (c : Car) (r : RS) : Car × RS :=
  if c.path.length > 1 then
    let next_pos := c.path.getD 1 (0, 0)
    let ht := handle_traffic_light w c next_pos r
    let c := ht.2.1
    let r := ht.2.2
    if ¬ ht.1 then (c, r)
    else
      let hc := handle_car_interaction w c next_pos r
      let c := hc.2.1
      let r := hc.2.2
      if ¬ hc.1 then (c, r)
      else
        let mv := can_move_to w c next_pos r
        let r := mv.2
        if mv.1 then
          let c := update_position_metrics c next_pos
          if c.position = c.destination then (arrive_at_destination w c, r)
          else (c, r)
        else (handle_blocked_movement w c, r)
  else (c, r)

/-- `CarAgent.step` (lines 559–593): emotional update, light
notification, the path-recomputation guard, then the movement block
(`step_move_phase`). -/
def CarAgent_step (w : World) (c : Car) (r : RS) : Car × RS :=
  let c := update_emotional_state c
  let c := notify_traffic_light w c
  let gr : Bool × RS :=
    if c.path = [] then (true, r)
    else if c.path.length > 1 then
      let mv := can_move_to w c (c.path.getD 1 (0, 0)) r
      (!mv.1, mv.2)
    else (false, r)
  let needRecompute := gr.1
  let r := gr.2
  let cr : Car × Bool :=
    if needRecompute then
      let new_path := (find_path w c).getD []
      if new_path ≠ [] then ({ c with path := new_path }, false)
      else
        ({ c with waiting_time := c.waiting_time + 1,
                  happiness := max 0 (rsub c.happiness 5),
                  stress := min 100 (c.stress + 3) }, true)
    else (c, false)
  let c := cr.1
  if cr.2 then (c, r)
  else step_move_phase w c r

/-! ## `TrafficLightAgent` -/

/-- `TrafficLightAgent.get_nearby_cars`: all cars within Chebyshev
distance `detection_radius`, scanned cell by cell (`dx` outer, `dy`
inner), in bounds only. -/
def get_nearby_cars (w : World) (tl : TrafficLight) : List Car :=
  let offsets := (List.range (2 * tl.detection_radius + 1)).map
    (fun i => (i : Int) - (tl.detection_radius : Int))
  offsets.foldl (fun acc dx =>
    offsets.foldl (fun acc dy =>
      let pos : Pos := (tl.position.1 + dx, tl.position.2 + dy)
      if inBounds w pos then
        acc ++ w.cars.filter (fun c => c.position = pos)
      else acc) acc) []

/-- `TrafficLightAgent.calculate_eta`: hop count of the path prefix
before the light's position; `float('inf')` (here `none`) only when the
path is empty.  A nonempty path that never meets the light's position
yields the *full* path length. -/
def calculate_eta (tl : TrafficLight) (car : Car) : Option Nat :=
  if car.path ≠ [] then
    some (car.path.takeWhile (fun pos => pos ≠ tl.position)).length
  else none

/-- The body of the `for car in nearby_cars` loop of
`TrafficLightAgent.update_traffic_schedule`: record the ETA when finite. -/
def schedule_process_car (tl : TrafficLight) (car : Car) : TrafficLight :=
  match calculate_eta tl car with
  | some eta =>
    { tl with approaching_cars :=
        dictInsert tl.approaching_cars car.unique_id (eta, car.position) }
  | none => tl

/-- `TrafficLightAgent.update_traffic_schedule`. -/
def update_traffic_schedule (w : World) (tl : TrafficLight) : TrafficLight :=
  let nearby_cars := get_nearby_cars w tl
  let tl : TrafficLight := { tl with approaching_cars := [] }
  if nearby_cars = [] then
    if tl.state ≠ .yellow then { tl with state := .yellow, color := "yellow" }
    else tl
  else
    let tl : TrafficLight := nearby_cars.foldl schedule_process_car tl
    let tl : TrafficLight :=
      if tl.approaching_cars ≠ [] ∧ tl.state = .yellow then
        let etas := tl.approaching_cars.map (fun e => e.2.1)
        let min_eta := (etas.tail).foldl min (etas.headD 0)
        if min_eta ≤ tl.detection_radius then
          { tl with state := .green, color := "green", timer := 0 }
        else tl
      else tl
    if tl.state = .green then
      let tl : TrafficLight := { tl with timer := tl.timer + 1 }
      if tl.timer ≥ tl.max_green_time then
        { tl with state := .red, color := "red", timer := 0 }
      else tl
    else if tl.state = .red then
      let tl : TrafficLight := { tl with timer := tl.timer + 1 }
      if tl.timer ≥ tl.min_green_time ∧ tl.approaching_cars = [] then
        { tl with state := .yellow, color := "yellow", timer := 0 }
      else tl
    else tl

/-- `TrafficLightAgent.step`. -/
def TrafficLightAgent_step (w : World) (tl : TrafficLight) : TrafficLight :=
  update_traffic_schedule w tl

/-! ## `TrafficModel.step` -/

/-- One light's activation inside the schedule loop. -/
def stepLightsBody (w : World) (i : Nat) : World :=
  { w with lights :=
      w.lights.set i (TrafficLightAgent_step w (w.lights.getD i default)) }

/-- The light phase of the tick: each light steps in insertion order
against the live world. -/
def stepLights (w : World) : World :=
  (List.range w.lights.length).foldl stepLightsBody w

/-- One car's activation inside the schedule loop. -/
def stepCarsBody (wr : World × RS) (i : Nat) : World × RS :=
  let cres := CarAgent_step wr.1 (wr.1.cars.getD i default) wr.2
  ({ wr.1 with cars := wr.1.cars.set i cres.1 }, cres.2)

/-- The car phase of the tick: each car steps in insertion order against
the live world (its committed move is visible to later cars). -/
def stepCars (w : World) (r : RS) : World × RS :=
  (List.range w.cars.length).foldl stepCarsBody (w, r)

/-- `TrafficModel.step`: `SimultaneousActivation` runs every agent's
`step` in insertion order (lights, then cars; `advance` is the base
class no-op), then increments the scheduler's step counter. -/
def TrafficModel_step (w : World) (r : RS) : World × RS :=
  let w := stepLights w
  let wr := stepCars w r
  ({ wr.1 with steps := wr.1.steps + 1 }, wr.2)

/-! ## Model construction (`TrafficModel.__init__` and helpers)

The model-owned generator `self.random` (seeded by mesa) is a separate
stream (`seed`) from the global `random` module stream (`g`): the source
draws spawn shuffles and destination rows from `self.random`, but
personalities, initial patience, strategies and risk draws from the
global module.  `TrafficModel.__init__` accepts no seed parameter at
all. -/

/-- The personality list of `CarAgent.__init__`, in source order. -/
def personality_list : List Personality :=
  [.cooperative, .aggressive, .cautious, .opportunistic, .reckless]

/-- `random.choice` over the personality list: one integer draw. -/
def random_choice (l : List Personality) (g : NS) : Personality × NS :=
  (l.getD (g.headD 0 % l.length) default, g.tail)

/-- `random.randint(a, b)` (inclusive): one integer draw. -/
def random_randint (a b : Nat) (g : NS) : Nat × NS :=
  (a + g.headD 0 % (b + 1 - a), g.tail)

/-- `self.random.randrange(n)`: one integer draw. -/
def random_randrange (n : Nat) (g : NS) : Nat × NS :=
  (g.headD 0 % n, g.tail)

/-- Swap two list entries (a Fisher-Yates step). -/
def listSwap (l : List Pos) (i j : Nat) : List Pos :=
  (l.set i (l.getD j (0, 0))).set j (l.getD i (0, 0))

/-- One Fisher-Yates step of `random.shuffle` over a list of original
length `n`. -/
def shuffle_body (n : Nat) (acc : List Pos × NS) (k : Nat) : List Pos × NS :=
  let i := n - 1 - k
  let j := acc.2.headD 0 % (i + 1)
  (listSwap acc.1 i j, acc.2.tail)

/-- `random.shuffle` (CPython Fisher-Yates: for `i` from `len-1` down to
`1`, draw `j` below `i+1` and swap). -/
def random_shuffle (l : List Pos) (s : NS) : List Pos × NS :=
  (List.range (l.length - 1)).foldl (shuffle_body l.length) (l, s)

/-- The patience modifiers of `CarAgent.get_initial_patience`. -/
def patience_modifier (p : Personality) : Int :=
  match p with
  | .cooperative => 2
  | .aggressive => -2
  | .cautious => 3
  | .opportunistic => 0
  | .reckless => -3

/-- `CarAgent.get_initial_patience`: `max(1, randint(3,8) + modifier)`. -/
def get_initial_patience (p : Personality) (g : NS) : Nat × NS :=
  let br := random_randint 3 8 g
  ((max 1 ((br.1 : Int) + patience_modifier p)).toNat, br.2)

/-- `CarAgent.__init__`: personality from the *global* stream, then
initial patience.  Position, destination and path are assigned later by
`set_position_and_destination`. -/
def CarAgent_init (uid : Nat) (g : NS) : Car × NS :=
  let pr := random_choice personality_list g
  let personality := pr.1
  let pat := get_initial_patience personality pr.2
  ({ unique_id := uid,
     position := (0, 0),
     destination := (0, 0),
     path := [],
     traffic_light_detection_range := 3,
     personality := personality,
     state := .normal,
     happiness := 100,
     stress := 0,
     patience := pat.1,
     waiting_time := 0,
     color := get_initial_color personality,
     risk_threshold := mkRat 1 2,
     learning_rate := mkRat 1 10,
     approaching_light := none,
     eta_to_light := none,
     memory := ⟨0, 0, [], []⟩ }, pat.2)

/-- `TrafficModel.create_car_with_personality`: override the random
personality (and refresh the color) unless the mode is `"random"`
(`none` here). -/
def create_car_with_personality (ptype : Option Personality) (uid : Nat) (g : NS) :
    Car × NS :=
  let cg := CarAgent_init uid g
  match ptype with
  | some p => ({ cg.1 with personality := p, color := get_initial_color p }, cg.2)
  | none => cg

/-- `CarAgent.set_position_and_destination`: store the endpoints and
compute `self.find_path() or []` against the current grid (the car
itself is not yet placed). -/
def set_position_and_destination (w : World) (c : Car) (pos dest : Pos) : Car :=
  let c := { c with position := pos, destination := dest }
  { c with path := (find_path w c).getD [] }

/-- `TrafficModel.create_traffic_lights`: one yellow light per lane at
`middle_x = width // 2`; ids follow insertion order starting at 1. -/
def create_traffic_lights (width height : Nat) : List TrafficLight :=
  (List.range height).map (fun y =>
    { unique_id := y + 1,
      position := ((width / 2 : Nat), (y : Int)),
      state := .yellow,
      color := "yellow",
      timer := 0,
      approaching_cars := [],
      min_green_time := 3,
      max_green_time := 10,
      detection_radius := 1 })

/-- One arm of `TrafficModel.create_bidirectional_cars`: spawn up to `n`
cars on the shuffled `starts`, destinations at `destX` with a
`randrange(height)` row, placing each car after its path is computed.
State: `(world, seed stream, global stream, next uid)`. -/
def spawn_body (starts : List Pos) (destX : Int) (ptype : Option Personality)
    (st : World × NS × NS × Nat) (i : Nat) : World × NS × NS × Nat :=
  if i < starts.length then
    let w := st.1
    let cg := create_car_with_personality ptype st.2.2.2 st.2.2.1
    let start_pos := starts.getD i (0, 0)
    let yr := random_randrange w.height st.2.1
    let end_pos : Pos := (destX, (yr.1 : Int))
    let car := set_position_and_destination w cg.1 start_pos end_pos
    ({ w with cars := w.cars ++ [car] }, yr.2, cg.2, st.2.2.2 + 1)
  else st

/-- `TrafficModel.create_bidirectional_cars`, one arm: spawn up to `n`
cars on the shuffled `starts` (skipping indices beyond the list). -/
def spawn_cars (n : Nat) (starts : List Pos) (destX : Int) (ptype : Option Personality)
    (st : World × NS × NS × Nat) : World × NS × NS × Nat :=
  (List.range n).foldl (spawn_body starts destX ptype) st

/-- `TrafficModel.create_bidirectional_cars`. -/
def create_bidirectional_cars (n : Nat) (ptype : Option Personality) (w : World)
    (seed g : NS) (uid : Nat) : World × NS × NS × Nat :=
  let left_start_positions := (List.range w.height).map (fun y => ((0 : Int), (y : Int)))
  let right_start_positions :=
    (List.range w.height).map (fun y => (((w.width : Int) - 1), (y : Int)))
  let ls := random_shuffle left_start_positions seed
  let rs := random_shuffle right_start_positions ls.2
  let st := spawn_cars n ls.1 ((w.width : Int) - 1) ptype (w, rs.2, g, uid)
  spawn_cars n rs.1 0 ptype st

/-- `TrafficModel.__init__` for valid dimensions (`width ≥ 3`,
`height ≥ 1`; smaller dimensions raise a `ValueError` and construct no
model).  The requested car count is clamped to `height`. -/
def TrafficModel_init (width height num_cars_per_direction : Nat)
    (ptype : Option Personality) (seed g : NS) : World × NS × NS :=
  let n := if num_cars_per_direction > height then height else num_cars_per_direction
  let w : World :=
    { width := width, height := height, steps := 0,
      lights := create_traffic_lights width height, cars := [] }
  let st := create_bidirectional_cars n ptype w seed g (height + 1)
  (st.1, st.2.1, st.2.2.1)

/-! ## Derived notions used in the statements -/

/-- Manhattan distance between two grid positions. -/
def manhattan (a b : Pos) : Nat :=
  (a.1 - b.1).natAbs + (a.2 - b.2).natAbs

/-- Hop count of a stored path (the head is the current position). -/
def hops (p : List Pos) : Nat := p.length - 1

/-! ## Proof-layer notions for the BFS analysis (C8)

`bfs_sel` replays the enqueue decisions of one expansion round of
`find_path` (which neighbours of the dequeued cell are enqueued, in
order), `lasts` collects the endpoints of the queued paths, and the two
structures package the standing assumptions (`BfsSetup`: the search
region of a personality) and the loop invariant (`BfsState`). -/

/-- The cells of `ns` that one expansion round enqueues, against the
visited list `vis` (which grows as the round proceeds). -/
def bfs_sel (w : World) (vis : List Pos) : List Pos → List Pos
  | [] => []
  | v :: t =>
    if v ∈ vis then bfs_sel w vis t
    else if (lightAt w v).isSome ∨ is_valid_position w v then
      v :: bfs_sel w (vis ++ [v]) t
    else bfs_sel w vis t

/-- Endpoints of the queued paths. -/
def lasts (Q : List (List Pos)) : List Pos :=
  Q.map (fun p => p.getLastD (0, 0))

/-- What a successful BFS run returns: a neighbour-chained path from the
car's position to its destination of length exactly the Manhattan
distance plus one. -/
def bfs_goal (w : World) (c : Car) (fuel : Nat) (Q : List (List Pos))
    (V : List Pos) : Prop :=
  ∃ p, bfsAux w c fuel Q V = some p ∧ p.headI = c.position ∧
    p.getLastD (0, 0) = c.destination ∧
    p.length = manhattan c.position c.destination + 1 ∧
    List.Chain' (fun a b => b ∈ get_neighbors w c a) p

/-- The axis-aligned box spanned by `a` and `b`. -/
def rectBetween (a b v : Pos) : Prop :=
  min a.1 b.1 ≤ v.1 ∧ v.1 ≤ max a.1 b.1 ∧
  min a.2 b.2 ≤ v.2 ∧ v.2 ≤ max a.2 b.2

/-- The search region of one personality: it contains both endpoints,
sits inside the grid, every neighbour step stays in it and changes the
distance from the start by exactly one, and every non-start cell of the
region is a neighbour of a region cell one level closer to the start. -/
structure BfsSetup (w : World) (c : Car) (R : Pos → Prop) : Prop where
  carsingle : w.cars = [c]
  startR : R c.position
  destR : R c.destination
  subB : ∀ v, R v → inBounds w v
  stepR : ∀ u v, R u → v ∈ get_neighbors w c u → R v ∧
    (manhattan c.position v = manhattan c.position u + 1 ∨
      manhattan c.position u = manhattan c.position v + 1)
  coacc : ∀ v, R v → v ≠ c.position →
    ∃ u, R u ∧ manhattan c.position v = manhattan c.position u + 1 ∧
      v ∈ get_neighbors w c u

/-- The BFS loop invariant: the queue is the level-`k` frontier `A`
followed by the level-`k+1` frontier `B`, `V` lists the discovered
cells (a permutation of the expanded cells `E` and the queue
endpoints), levels below `k` are fully expanded, level `k` is expanded
or pending in `A`, expansion is neighbour-closed into `V`, and the
destination has never been expanded. -/
structure BfsState (w : World) (c : Car) (R : Pos → Prop) (k : Nat)
    (A B : List (List Pos)) (V E : List Pos) : Prop where
  vnodup : V.Nodup
  vperm : V.Perm (E ++ lasts A ++ lasts B)
  vR : ∀ v ∈ V, R v
  pathsA : ∀ p ∈ A, p ≠ [] ∧ p.headI = c.position ∧ p.length = k + 1 ∧
    manhattan c.position (p.getLastD (0, 0)) = k ∧
    List.Chain' (fun a b => b ∈ get_neighbors w c a) p
  pathsB : ∀ p ∈ B, p ≠ [] ∧ p.headI = c.position ∧ p.length = k + 2 ∧
    manhattan c.position (p.getLastD (0, 0)) = k + 1 ∧
    List.Chain' (fun a b => b ∈ get_neighbors w c a) p
  eLow : ∀ v ∈ E, manhattan c.position v ≤ k
  eComplete : ∀ v, R v → manhattan c.position v < k → v ∈ E
  kComplete : ∀ v, R v → manhattan c.position v = k → v ∈ E ∨ v ∈ lasts A
  eClosed : ∀ u ∈ E, ∀ v, v ∈ get_neighbors w c u → v ∈ V
  startV : c.position ∈ V
  destNotE : c.destination ∉ E

/-! ## Concrete scenario worlds (used by counterexamples and witnesses) -/

/-- A fresh memory record. -/
def memory0 : Memory := ⟨0, 0, [], []⟩

/-- An aggressive car held at a red light with high stress: the red-light
penalty adds `+2` stress without clamping. -/
def carRed : Car :=
  { unique_id := 10, position := (0, 0), destination := (3, 0),
    path := [(0, 0), (1, 0), (2, 0), (3, 0)],
    traffic_light_detection_range := 3,
    personality := .aggressive, state := .normal,
    happiness := 50, stress := 98, patience := 5, waiting_time := 5,
    color := "red", risk_threshold := mkRat 1 2, learning_rate := mkRat 1 10,
    approaching_light := none, eta_to_light := none, memory := memory0 }

/-- A red light in the single lane of `worldRed`. -/
def lightRed : TrafficLight :=
  { unique_id := 1, position := (1, 0), state := .red, color := "red",
    timer := 0, approaching_cars := [], min_green_time := 3,
    max_green_time := 10, detection_radius := 1 }

/-- 4×1 world: one aggressive car facing a red light. -/
def worldRed : World :=
  { width := 4, height := 1, steps := 0, lights := [lightRed], cars := [carRed] }

/-- A cooperative car one step from its destination. -/
def carArrive : Car :=
  { unique_id := 10, position := (2, 0), destination := (3, 0),
    path := [(2, 0), (3, 0)],
    traffic_light_detection_range := 3,
    personality := .cooperative, state := .normal,
    happiness := 50, stress := 0, patience := 5, waiting_time := 0,
    color := "blue", risk_threshold := mkRat 1 2, learning_rate := mkRat 1 10,
    approaching_light := none, eta_to_light := none, memory := memory0 }

/-- A yellow light behind the arriving car. -/
def lightArrive : TrafficLight :=
  { unique_id := 1, position := (1, 0), state := .yellow, color := "yellow",
    timer := 0, approaching_cars := [], min_green_time := 3,
    max_green_time := 10, detection_radius := 1 }

/-- 4×1 world: the car reaches its destination this tick. -/
def worldArrive : World :=
  { width := 4, height := 1, steps := 0, lights := [lightArrive], cars := [carArrive] }

/-- A cooperative car three cells short of a yellow light (inside its own
lookahead range, outside the light's detection radius). -/
def carNotify : Car :=
  { unique_id := 10, position := (0, 0), destination := (7, 0),
    path := [(0, 0), (1, 0), (2, 0), (3, 0), (4, 0), (5, 0), (6, 0), (7, 0)],
    traffic_light_detection_range := 3,
    personality := .cooperative, state := .normal,
    happiness := 50, stress := 0, patience := 5, waiting_time := 0,
    color := "blue", risk_threshold := mkRat 1 2, learning_rate := mkRat 1 10,
    approaching_light := none, eta_to_light := none, memory := memory0 }

/-- The yellow light of `worldNotify`, at `(3, 0)`. -/
def lightNotify : TrafficLight :=
  { unique_id := 1, position := (3, 0), state := .yellow, color := "yellow",
    timer := 0, approaching_cars := [], min_green_time := 3,
    max_green_time := 10, detection_radius := 1 }

/-- 8×1 world for the notification scenario. -/
def worldNotify : World :=
  { width := 8, height := 1, steps := 0, lights := [lightNotify], cars := [carNotify] }

/-- A car whose path detours around the light cell `(1, 0)`. -/
def carDetour : Car :=
  { unique_id := 10, position := (0, 0), destination := (2, 0),
    path := [(0, 0), (0, 1), (1, 1), (2, 1), (2, 0)],
    traffic_light_detection_range := 3,
    personality := .cooperative, state := .normal,
    happiness := 50, stress := 0, patience := 5, waiting_time := 0,
    color := "blue", risk_threshold := mkRat 1 2, learning_rate := mkRat 1 10,
    approaching_light := none, eta_to_light := none, memory := memory0 }

/-- The light of the detour scenario, at `(1, 0)`. -/
def lightDetour : TrafficLight :=
  { unique_id := 1, position := (1, 0), state := .yellow, color := "yellow",
    timer := 0, approaching_cars := [], min_green_time := 3,
    max_green_time := 10, detection_radius := 1 }

/-- 3×2 world for the ETA scenario: the car sits inside the light's
detection radius but its path never crosses the light's cell. -/
def worldDetour : World :=
  { width := 3, height := 2, steps := 0, lights := [lightDetour], cars := [carDetour] }

/-- Two cooperative cars used for negotiation and exclusion witnesses. -/
def carA : Car :=
  { unique_id := 10, position := (0, 0), destination := (4, 0),
    path := [(0, 0), (1, 0), (2, 0), (3, 0), (4, 0)],
    traffic_light_detection_range := 3,
    personality := .cooperative, state := .normal,
    happiness := 50, stress := 0, patience := 5, waiting_time := 0,
    color := "blue", risk_threshold := mkRat 1 2, learning_rate := mkRat 1 10,
    approaching_light := none, eta_to_light := none, memory := memory0 }

/-- Second car of the pair, facing the first. -/
def carB : Car :=
  { unique_id := 11, position := (4, 0), destination := (0, 0),
    path := [(4, 0), (3, 0), (2, 0), (1, 0), (0, 0)],
    traffic_light_detection_range := 3,
    personality := .cooperative, state := .normal,
    happiness := 50, stress := 0, patience := 5, waiting_time := 0,
    color := "blue", risk_threshold := mkRat 1 2, learning_rate := mkRat 1 10,
    approaching_light := none, eta_to_light := none, memory := memory0 }

/-- 5×1 world with two opposing cars and no lights in their row. -/
def worldPair : World :=
  { width := 5, height := 1, steps := 0, lights := [], cars := [carA, carB] }

/-- A small empty-grid world for the pathfinding witness: one car, no
lights, 3×3 grid. -/
def carPath : Car :=
  { unique_id := 10, position := (0, 0), destination := (2, 1),
    path := [],
    traffic_light_detection_range := 3,
    personality := .cooperative, state := .normal,
    happiness := 50, stress := 0, patience := 5, waiting_time := 0,
    color := "blue", risk_threshold := mkRat 1 2, learning_rate := mkRat 1 10,
    approaching_light := none, eta_to_light := none, memory := memory0 }

/-- 3×3 world containing only `carPath`. -/
def worldPath : World :=
  { width := 3, height := 3, steps := 0, lights := [], cars := [carPath] }

/-! # Theorems -/

/-! ## The computable arithmetic agrees with the field operations -/

/-- `radd` is rational addition. -/
theorem radd_eq (a b : Rat) : radd a b = a + b := by
  unfold radd
  rw [Rat.mkRat_eq_div]
  push_cast
  have ha : ((a.den : Rat)) ≠ 0 := by positivity
  have hb : ((b.den : Rat)) ≠ 0 := by positivity
  conv_rhs => rw [← Rat.num_div_den a, ← Rat.num_div_den b]
  rw [div_add_div _ _ ha hb]
  ring_nf

/-- `rsub` is rational subtraction. -/
theorem rsub_eq (a b : Rat) : rsub a b = a - b := by
  unfold rsub
  rw [Rat.mkRat_eq_div]
  push_cast
  have ha : ((a.den : Rat)) ≠ 0 := by positivity
  have hb : ((b.den : Rat)) ≠ 0 := by positivity
  conv_rhs => rw [← Rat.num_div_den a, ← Rat.num_div_den b]
  rw [div_sub_div _ _ ha hb]
  ring_nf

/-- `rmul` is rational multiplication. -/
theorem rmul_eq (a b : Rat) : rmul a b = a * b := by
  unfold rmul
  rw [Rat.mkRat_eq_div]
  push_cast
  conv_rhs => rw [← Rat.num_div_den a, ← Rat.num_div_den b]
  rw [div_mul_div_comm]

/-- `rdiv` is rational division. -/
theorem rdiv_eq (a b : Rat) : rdiv a b = a / b := by
  unfold rdiv
  rcases lt_trichotomy b.num 0 with hb | hb | hb
  · have hs : b.num.sign = -1 := Int.sign_eq_neg_one_of_neg hb
    rw [Rat.mkRat_eq_div, hs]
    have hB : ((b.num : Rat)) ≠ 0 := by exact_mod_cast hb.ne
    push_cast [Int.cast_natAbs]
    rw [abs_of_neg (show ((b.num : Rat)) < 0 by exact_mod_cast hb)]
    conv_rhs => rw [← Rat.num_div_den a, ← Rat.num_div_den b]
    field_simp
  · rw [Rat.mkRat_eq_div, hb]
    rw [Rat.num_eq_zero.mp hb]
    simp
  · have hs : b.num.sign = 1 := Int.sign_eq_one_of_pos hb
    rw [Rat.mkRat_eq_div, hs]
    have hB : ((b.num : Rat)) ≠ 0 := by exact_mod_cast hb.ne'
    push_cast [Int.cast_natAbs]
    rw [abs_of_pos (show (0:Rat) < (b.num : Rat) by exact_mod_cast hb)]
    conv_rhs => rw [← Rat.num_div_den a, ← Rat.num_div_den b]
    field_simp

/-! ## C7: metrics of a committed move -/

/-- **C7** (code bug).  On every committed move `waiting_time` resets to
0, happiness gains exactly `+5` (clamped at 100) and stress drops by 1
(clamped at 0) — but the `+2` forward-progress bonus promised by the
source's own comment is never applied: its guard compares `next_pos[0]`
with the already-updated `self.position[0]`, so it is unsatisfiable.  At
the failing input (a car at `(0,0)` with happiness 50 moving forward to
`(1,0)` towards `(4,0)`), the result is 55, not the 57 the claim
requires. -/
theorem update_position_metrics_no_forward_bonus :
    (∀ (c : Car) (next_pos : Pos),
      (update_position_metrics c next_pos).happiness = min 100 (c.happiness + 5) ∧
      (update_position_metrics c next_pos).waiting_time = 0 ∧
      (update_position_metrics c next_pos).stress = max 0 (c.stress - 1) ∧
      (update_position_metrics c next_pos).path = c.path.tail) ∧
    (update_position_metrics carA (1, 0)).happiness = 55 := by
  constructor
  · intro c next_pos
    unfold update_position_metrics
    simp [lt_irrefl, radd_eq]
  · decide

/-! ## C10: negotiation only mutates the initiator -/

/-- **C10** (confirmed).  `negotiate_passage` writes only to `self`: the
opposing car returned is the opposing car passed in, so its memory
counters, risky-move buffer, happiness, stress, waiting time and
position are all unchanged (only its strategy is sampled, which reads
but never writes). -/
theorem negotiate_passage_frame :
    ∀ (c other : Car) (r : RS),
      (negotiate_passage c other r).2.2.1 = other ∧
      ((negotiate_passage c other r).2.2.1).memory = other.memory ∧
      ((negotiate_passage c other r).2.2.1).happiness = other.happiness ∧
      ((negotiate_passage c other r).2.2.1).stress = other.stress ∧
      ((negotiate_passage c other r).2.2.1).waiting_time = other.waiting_time ∧
      ((negotiate_passage c other r).2.2.1).position = other.position := by
  intro c other r
  refine ⟨rfl, rfl, rfl, rfl, rfl, rfl⟩

/-! ## C9: cooperative yield/yield negotiation -/

/-- **C9** (confirmed).  For a cooperative initiator in normal state with
fresh negotiation memory, when both sides sample `yield` the computed
payoff is exactly 8 and passage is granted; and in general passage is
granted iff the computed payoff is strictly positive. -/
theorem cooperative_yield_payoff (c other : Car) (r : RS)
    (hp : c.personality = .cooperative) (hs : c.state = .normal)
    (hm1 : c.memory.successful_negotiations = 0)
    (hm2 : c.memory.failed_negotiations = 0)
    (hy1 : (get_strategy c other r).1 = .yield)
    (hy2 : (get_strategy other c (get_strategy c other r).2).1 = .yield) :
    calculate_payoff c .yield .yield = 8 ∧
    (negotiate_passage c other r).1 = true ∧
    (∀ (a b : Car) (s : RS),
      (negotiate_passage a b s).1 = true ↔
        0 < calculate_payoff a (get_strategy a b s).1
              (get_strategy b a (get_strategy a b s).2).1) := by
  have hpay : calculate_payoff c .yield .yield = 8 := by
    simp only [calculate_payoff, hp, hs, hm1, hm2]
    decide
  refine ⟨hpay, ?_, ?_⟩
  · simp only [negotiate_passage]
    rw [hy1, hy2, hpay]
    decide
  · intro a b s
    simp only [negotiate_passage]
    simp

/-- Witness for **C9**: two concrete cooperative cars and the draw
stream `[9/10, 9/10]` (both draws exceed the push-through probability
3/10, so both sample `yield`). -/
theorem cooperative_yield_payoff_witness :
    calculate_payoff carA .yield .yield = 8 ∧
    (negotiate_passage carA carB [mkRat 9 10, mkRat 9 10]).1 = true := by
  have h := cooperative_yield_payoff carA carB [mkRat 9 10, mkRat 9 10]
    (by decide) (by decide) (by decide) (by decide) (by decide) (by decide)
  exact ⟨h.1, h.2.1⟩

/-! ## List and dictionary helper lemmas -/

/-- `takeWhile (· ≠ p)` keeps the whole list when `p` does not occur. -/
theorem takeWhile_ne_of_not_mem (l : List Pos) (p : Pos) (h : p ∉ l) :
    l.takeWhile (fun pos => pos ≠ p) = l := by
  induction l with
  | nil => rfl
  | cons a t ih =>
    have ha : a ≠ p := by
      intro hap
      exact h (hap ▸ List.mem_cons_self a t)
    have ht : p ∉ t := fun hm => h (List.mem_cons_of_mem a hm)
    have hd : (decide (a ≠ p)) = true := by simp [ha]
    have step : List.takeWhile (fun pos => decide (pos ≠ p)) (a :: t)
        = a :: List.takeWhile (fun pos => decide (pos ≠ p)) t :=
      List.takeWhile_cons_of_pos hd
    rw [step, ih ht]

/-- A freshly inserted key is present. -/
theorem dictInsert_any_self {β : Type} (d : List (Nat × β)) (k : Nat) (v : β) :
    ((dictInsert d k v).any (fun e => e.1 = k)) = true := by
  unfold dictInsert
  split_ifs with h
  · rw [List.any_eq_true] at h ⊢
    obtain ⟨e, he, hk⟩ := h
    refine ⟨(k, v), ?_, by simp⟩
    rw [List.mem_map]
    refine ⟨e, he, ?_⟩
    simp only [decide_eq_true_eq] at hk
    simp [hk]
  · rw [List.any_eq_true]
    exact ⟨(k, v), List.mem_append_right _ (List.mem_singleton_self _),
      decide_eq_true rfl⟩

/-- Insertion never removes a key. -/
theorem dictInsert_any_preserved {β : Type} (d : List (Nat × β)) (k0 k : Nat) (v : β)
    (h : (d.any (fun e => e.1 = k0)) = true) :
    ((dictInsert d k v).any (fun e => e.1 = k0)) = true := by
  unfold dictInsert
  split_ifs with hk
  · rw [List.any_eq_true] at h ⊢
    obtain ⟨e, he, hke⟩ := h
    simp only [decide_eq_true_eq] at hke
    by_cases hek : e.1 = k
    · refine ⟨(k, v), ?_, by simp [hek ▸ hke]⟩
      rw [List.mem_map]
      exact ⟨e, he, by simp [hek]⟩
    · refine ⟨e, ?_, by simp [hke]⟩
      rw [List.mem_map]
      exact ⟨e, he, by simp [hek]⟩
  · rw [List.any_eq_true] at h ⊢
    obtain ⟨e, he, hke⟩ := h
    exact ⟨e, List.mem_append_left _ he, hke⟩

/-- The schedule loop never removes a key from `approaching_cars`. -/
theorem schedule_fold_preserves_key (l : List Car) (k : Nat) :
    ∀ tl : TrafficLight,
      (tl.approaching_cars.any (fun e => e.1 = k)) = true →
      ((l.foldl schedule_process_car tl).approaching_cars.any (fun e => e.1 = k)) = true := by
  induction l with
  | nil => intro tl h; exact h
  | cons a t ih =>
    intro tl h
    rw [List.foldl_cons]
    apply ih
    unfold schedule_process_car
    cases calculate_eta tl a with
    | none => exact h
    | some eta => exact dictInsert_any_preserved _ _ _ _ h

/-- Every nearby car with a nonempty path ends up keyed in
`approaching_cars` after the schedule loop. -/
theorem schedule_fold_mem_key (l : List Car) (car : Car) (hc : car ∈ l)
    (hp : car.path ≠ []) :
    ∀ tl : TrafficLight,
      ((l.foldl schedule_process_car tl).approaching_cars.any
        (fun e => e.1 = car.unique_id)) = true := by
  induction l with
  | nil => cases hc
  | cons a t ih =>
    intro tl
    rw [List.foldl_cons]
    rcases List.mem_cons.mp hc with rfl | hmem
    · apply schedule_fold_preserves_key
      unfold schedule_process_car calculate_eta
      rw [if_pos hp]
      exact dictInsert_any_self _ _ _
    · exact ih hmem _

/-- Replacement lookup: the inserted value is found at its key
(key present case). -/
theorem find_map_replace {β : Type} (d : List (Pos × β)) (k : Pos) (v : β)
    (h : (d.any (fun e => e.1 = k)) = true) :
    ((d.map (fun e => if e.1 = k then (k, v) else e)).find?
      (fun e => e.1 = k)) = some (k, v) := by
  induction d with
  | nil => simp at h
  | cons a t ih =>
    by_cases hak : a.1 = k
    · rw [List.map_cons, if_pos hak]
      exact List.find?_cons_of_pos _ (decide_eq_true rfl)
    · have ht : (t.any (fun e => e.1 = k)) = true := by
        rw [List.any_cons] at h
        rcases Bool.or_eq_true_iff.mp h with h1 | h2
        · exact absurd (of_decide_eq_true h1) hak
        · exact h2
      rw [List.map_cons, if_neg hak,
        List.find?_cons_of_neg _ (by simp [hak]), ih ht]

/-- Append lookup: the appended binding is found when the key is absent. -/
theorem find_append_absent {β : Type} (d : List (Pos × β)) (k : Pos) (v : β)
    (h : ¬ (d.any (fun e => e.1 = k)) = true) :
    ((d ++ [(k, v)]).find? (fun e => e.1 = k)) = some (k, v) := by
  induction d with
  | nil => simp
  | cons a t ih =>
    have hak : ¬ a.1 = k := by
      intro hk
      exact h (by simp [List.any_cons, hk])
    have ht : ¬ (t.any (fun e => e.1 = k)) = true := by
      intro hk
      exact h (by simp [List.any_cons, hk])
    rw [List.cons_append, List.find?_cons_of_neg _ (by simp [hak]), ih ht]

/-- Dict lookup after dict assignment at the same key yields the stored
value. -/
theorem dictFindPos_insert_self {β : Type} (d : List (Pos × β)) (k : Pos) (v : β) :
    dictFindPos (dictInsertPos d k v) k = some v := by
  unfold dictFindPos dictInsertPos
  split_ifs with h
  · rw [find_map_replace d k v h]; rfl
  · rw [find_append_absent d k v h]; rfl

/-! ## World plumbing lemmas -/

/-- The light phase never touches the car list. -/
theorem stepLights_cars (w : World) : (stepLights w).cars = w.cars := by
  unfold stepLights
  generalize List.range w.lights.length = is
  induction is generalizing w with
  | nil => rfl
  | cons i t ih =>
    rw [List.foldl_cons]
    exact ih (stepLightsBody w i)

/-- The car phase preserves the number of cars (agents are stepped in
place, never removed). -/
theorem stepCars_length_aux (is : List Nat) :
    ∀ wr : World × RS, ((is.foldl stepCarsBody wr).1.cars.length = wr.1.cars.length) := by
  induction is with
  | nil => intro wr; rfl
  | cons i t ih =>
    intro wr
    rw [List.foldl_cons, ih]
    unfold stepCarsBody
    simp

/-- A tick never removes an agent: the car count is invariant under
`TrafficModel.step`. -/
theorem TrafficModel_step_cars_length (w : World) (r : RS) :
    (TrafficModel_step w r).1.cars.length = w.cars.length := by
  unfold TrafficModel_step stepCars
  simp only
  rw [stepCars_length_aux]
  simp [stepLights_cars]

/-! ## C4: ETA for a path that misses the light -/

/-- **C4** (corrected).  The computation is total (never raises), but the
ETA is infinite only for an *empty* path: a vehicle whose nonempty path
misses the controller's position gets the *full path length* as a finite
ETA and *is* entered into `approaching_cars` when detected. -/
theorem calculate_eta_missing_light (w : World) (tl : TrafficLight) (car : Car)
    (hp : car.path ≠ []) (habs : tl.position ∉ car.path) :
    calculate_eta tl car = some car.path.length ∧
    (car ∈ get_nearby_cars w tl →
      ((update_traffic_schedule w tl).approaching_cars.any
        (fun e => e.1 = car.unique_id)) = true) ∧
    (∀ c2 : Car, c2.path = [] → calculate_eta tl c2 = none) := by
  refine ⟨?_, ?_, ?_⟩
  · unfold calculate_eta
    rw [if_pos hp, takeWhile_ne_of_not_mem _ _ habs]
  · intro hmem
    unfold update_traffic_schedule
    rw [if_neg (List.ne_nil_of_mem hmem)]
    have hkey := schedule_fold_mem_key (get_nearby_cars w tl) car hmem hp
      { tl with approaching_cars := [] }
    dsimp only
    split_ifs <;> simpa using hkey
  · intro c2 h2
    unfold calculate_eta
    rw [if_neg (by simp [h2])]

/-- Witness for **C4**: the detour car's ETA is its full path length 5
and it is registered in the light's table. -/
theorem calculate_eta_missing_light_witness :
    calculate_eta lightDetour carDetour = some 5 ∧
    ((update_traffic_schedule worldDetour lightDetour).approaching_cars.any
      (fun e => e.1 = 10)) = true := by
  have h := calculate_eta_missing_light worldDetour lightDetour carDetour
    (by decide) (by decide)
  refine ⟨?_, ?_⟩
  · rw [h.1]; rfl
  · exact h.2.1 (by decide)

/-- **C4 counterexample**: the claim says a vehicle whose path misses the
controller's position gets an infinite ETA and is *not* entered into
`approaching_cars`.  The detour car's path `[(0,0),(0,1),(1,1),(2,1),(2,0)]`
never meets the light cell `(1,0)`, yet its ETA is the finite `some 5`
and it *is* entered. -/
theorem calculate_eta_missing_light_counterexample :
    lightDetour.position ∉ carDetour.path ∧
    carDetour.path ≠ [] ∧
    calculate_eta lightDetour carDetour ≠ none ∧
    ((update_traffic_schedule worldDetour lightDetour).approaching_cars.any
      (fun e => e.1 = carDetour.unique_id)) = true := by
  decide

/-! ## C5: arrival does not deactivate the agent -/

/-- **C5** (corrected).  Arrival grants the bonus (happiness `+20`
clamped, stress `−10` clamped, state `happy`) and records the
trip-memory entry, but the agent is *never* removed from the grid or the
schedule: the tick preserves the car count. -/
theorem arrive_keeps_agent :
    (∀ (w : World) (c : Car),
      (arrive_at_destination w c).happiness = min 100 (c.happiness + 20) ∧
      (arrive_at_destination w c).stress = max 0 (c.stress - 10) ∧
      (arrive_at_destination w c).state = CarState.happy ∧
      dictFindPos (arrive_at_destination w c).memory.traffic_patterns c.destination =
        some { path := c.path, time := w.steps, stress_level := max 0 (c.stress - 10) }) ∧
    (∀ (w : World) (r : RS), (TrafficModel_step w r).1.cars.length = w.cars.length) := by
  constructor
  · intro w c
    unfold arrive_at_destination
    refine ⟨by simp [radd_eq], rfl, rfl, ?_⟩
    exact dictFindPos_insert_self _ _ _
  · exact TrafficModel_step_cars_length

/-- **C5 counterexample**: the claim says a vehicle reaching its
destination is removed from the grid and deactivated.  In `worldArrive`
the car reaches `(3,0)` (its destination) during the tick, receives the
bonus and the trip record, yet it is still present in the car list and
still occupies the cell at the end of the tick. -/
theorem arrive_keeps_agent_counterexample :
    ((TrafficModel_step worldArrive []).1.cars.getD 0 default).position = (3, 0) ∧
    carArrive.destination = (3, 0) ∧
    ((TrafficModel_step worldArrive []).1.cars.getD 0 default).state = CarState.happy ∧
    ((TrafficModel_step worldArrive []).1.cars.getD 0 default).happiness = 75 ∧
    (TrafficModel_step worldArrive []).1.cars.length = 1 ∧
    anyCarAt (TrafficModel_step worldArrive []).1 (3, 0) := by
  decide

/-! ## C6: the register_approaching_car entrypoint does not exist -/

/-- **C6** (corrected).  When a vehicle detects a light ahead within its
lookahead range (and it differs from the tracked one or the ETA is
unset), it only updates its *own* tracking fields
(`approaching_light`, `eta_to_light`): `TrafficLightAgent` has no
`register_approaching_car` method, so the `hasattr` guard fails and the
light is never called; the light's table is fed by radius detection
alone. -/
theorem notify_traffic_light_local_only (w : World) (c : Car) (light : TrafficLight)
    (hd : detect_traffic_light_ahead w c = some light)
    (hnew : c.approaching_light ≠ some light.position ∨ c.eta_to_light = none) :
    (notify_traffic_light w c).approaching_light = some light.position ∧
    (notify_traffic_light w c).eta_to_light =
      some (light.position.1 - c.position.1).natAbs ∧
    (∀ (w2 : World) (c2 : Car), (notify_traffic_light w2 c2).memory = c2.memory ∧
      (notify_traffic_light w2 c2).position = c2.position) := by
  have hmain : (notify_traffic_light w c).approaching_light = some light.position ∧
      (notify_traffic_light w c).eta_to_light =
        some (light.position.1 - c.position.1).natAbs := by
    unfold notify_traffic_light
    rw [hd]
    dsimp only
    rw [if_pos hnew]
    exact ⟨rfl, rfl⟩
  refine ⟨hmain.1, hmain.2, ?_⟩
  intro w2 c2
  unfold notify_traffic_light
  cases detect_traffic_light_ahead w2 c2 with
  | none => exact ⟨rfl, rfl⟩
  | some l2 =>
    dsimp only
    split_ifs <;> exact ⟨rfl, rfl⟩

/-- Witness for **C6**: the car of `worldNotify` detects the light at
`(3,0)` three cells ahead and records it locally. -/
theorem notify_traffic_light_local_only_witness :
    (notify_traffic_light worldNotify carNotify).approaching_light = some (3, 0) ∧
    (notify_traffic_light worldNotify carNotify).eta_to_light = some 3 := by
  have h := notify_traffic_light_local_only worldNotify carNotify lightNotify
    (by decide) (Or.inl (by decide))
  exact ⟨h.1, h.2.1⟩

/-- **C6 counterexample**: the claim says the detecting vehicle thereby
appears in the light's `approaching_cars` table for that tick.  In
`worldNotify` the car (at `(0,0)`) detects the light at `(3,0)` within
its lookahead range 3 and records it locally, but after the full tick
the light's table is empty: the vehicle is outside the light's detection
radius 1 and `register_approaching_car` was never called because the
method does not exist. -/
theorem notify_traffic_light_counterexample :
    ((TrafficModel_step worldNotify []).1.cars.getD 0 default).approaching_light =
      some (3, 0) ∧
    ((TrafficModel_step worldNotify []).1.cars.getD 0 default).eta_to_light = some 3 ∧
    ((TrafficModel_step worldNotify []).1.lights.getD 0 default).approaching_cars = [] := by
  decide

/-! ## C1 counterexample: stress exceeds 100 -/

/-- **C1 counterexample**: the claim says stress stays within `[0,100]`
at the end of every tick.  In `worldRed` the single aggressive car
starts the tick with happiness 50 and stress 98 (both inside the claimed
ranges), waits at the red light, and ends the tick with stress 101: the
red-light penalty `stress += 2` is applied without clamping. -/
theorem stress_range_counterexample :
    (0 ≤ carRed.happiness ∧ carRed.happiness ≤ 100 ∧ carRed.stress ≤ 100) ∧
    ((TrafficModel_step worldRed []).1.cars.getD 0 default).stress = 101 ∧
    ¬ ((TrafficModel_step worldRed []).1.cars.getD 0 default).stress ≤ 100 := by
  decide

/-! ## Stage lemmas for the car pipeline -/

/-- `update_state_parameters` only touches the learning parameters. -/
theorem update_state_parameters_fields (c : Car) :
    (update_state_parameters c).happiness = c.happiness ∧
    (update_state_parameters c).stress = c.stress ∧
    (update_state_parameters c).position = c.position ∧
    (update_state_parameters c).path = c.path ∧
    (update_state_parameters c).personality = c.personality ∧
    (update_state_parameters c).destination = c.destination := by
  unfold update_state_parameters
  split_ifs <;> exact ⟨rfl, rfl, rfl, rfl, rfl, rfl⟩

/-- A clamp to `[0,100]` followed by a decay of at least 1 stays below
100. -/
theorem clamp_decay_le (x d : Nat) (hd : 1 ≤ d) :
    max 0 (min 100 (max 0 x) - d) ≤ 99 := by
  rw [max_eq_right (Nat.zero_le _)]
  have h1 : min 100 (max 0 x) ≤ 100 := min_le_left _ _
  omega

/-- The emotional update never touches happiness, position, path,
personality or destination, and always leaves stress at most 99 (the
clamp to 100 is followed by a decay of at least 1). -/
theorem update_emotional_state_fields (c : Car) :
    (update_emotional_state c).happiness = c.happiness ∧
    (update_emotional_state c).stress ≤ 99 ∧
    (update_emotional_state c).position = c.position ∧
    (update_emotional_state c).path = c.path ∧
    (update_emotional_state c).personality = c.personality ∧
    (update_emotional_state c).destination = c.destination := by
  unfold update_emotional_state
  dsimp only
  split_ifs <;> dsimp only <;>
    first
      | exact ⟨rfl, clamp_decay_le _ _ (by norm_num), rfl, rfl, rfl, rfl⟩
      | (refine ⟨(update_state_parameters_fields _).1, ?_,
          (update_state_parameters_fields _).2.2.1,
          (update_state_parameters_fields _).2.2.2.1,
          (update_state_parameters_fields _).2.2.2.2.1,
          (update_state_parameters_fields _).2.2.2.2.2⟩
         rw [(update_state_parameters_fields _).2.1]
         exact clamp_decay_le _ _ (by norm_num))

/-- Light notification only touches the tracking fields. -/
theorem notify_traffic_light_fields (w : World) (c : Car) :
    (notify_traffic_light w c).happiness = c.happiness ∧
    (notify_traffic_light w c).stress = c.stress ∧
    (notify_traffic_light w c).position = c.position ∧
    (notify_traffic_light w c).path = c.path ∧
    (notify_traffic_light w c).personality = c.personality ∧
    (notify_traffic_light w c).destination = c.destination := by
  unfold notify_traffic_light
  cases detect_traffic_light_ahead w c with
  | none => exact ⟨rfl, rfl, rfl, rfl, rfl, rfl⟩
  | some l =>
    dsimp only
    split_ifs <;> exact ⟨rfl, rfl, rfl, rfl, rfl, rfl⟩

/-- A positive `can_move_to` verdict certifies a car-free, in-bounds
cell. -/
theorem can_move_to_true (w : World) (c : Car) (pos : Pos) (r : RS)
    (h : (can_move_to w c pos r).1 = true) :
    inBounds w pos ∧ ¬ anyCarAt w pos := by
  unfold can_move_to at h
  by_cases hb : inBounds w pos
  · by_cases hc : anyCarAt w pos
    · rw [if_neg (by simpa using hb), if_pos hc] at h
      cases h
    · exact ⟨hb, hc⟩
  · rw [if_pos (by simpa using hb)] at h
    cases h

/-- The traffic-light gate leaves the car untouched when it allows
passage. -/
theorem handle_traffic_light_pass (w : World) (c : Car) (p : Pos) (r : RS)
    (h : (handle_traffic_light w c p r).1 = true) :
    (handle_traffic_light w c p r).2.1 = c := by
  unfold handle_traffic_light at h ⊢
  cases hL : lightAt w p with
  | none => rfl
  | some tl =>
    rw [hL] at h
    dsimp only [randFloat] at h ⊢
    split_ifs at h ⊢ <;> first | rfl | simp at h

/-- Field effects of the traffic-light gate: stress grows by at most 2
(unclamped on red), happiness stays in `[0,100]`, nothing else moves. -/
theorem handle_traffic_light_fields (w : World) (c : Car) (p : Pos) (r : RS) :
    (handle_traffic_light w c p r).2.1.position = c.position ∧
    (handle_traffic_light w c p r).2.1.path = c.path ∧
    (handle_traffic_light w c p r).2.1.personality = c.personality ∧
    (handle_traffic_light w c p r).2.1.destination = c.destination ∧
    (handle_traffic_light w c p r).2.1.stress ≤ c.stress + 2 ∧
    (0 ≤ c.happiness → c.happiness ≤ 100 →
      0 ≤ (handle_traffic_light w c p r).2.1.happiness ∧
      (handle_traffic_light w c p r).2.1.happiness ≤ 100) := by
  unfold handle_traffic_light
  rcases lightAt w p with _ | tl
  · exact ⟨rfl, rfl, rfl, rfl, Nat.le_add_right _ _, fun h0 h1 => ⟨h0, h1⟩⟩
  dsimp only [randFloat]
  by_cases hg : tl.state = .green
  · rw [if_pos hg]
    exact ⟨rfl, rfl, rfl, rfl, Nat.le_add_right _ _, fun h0 h1 => ⟨h0, h1⟩⟩
  rw [if_neg hg]
  by_cases hr : tl.state = .red
  · rw [if_pos hr]
    refine ⟨rfl, rfl, rfl, rfl, ?_, fun h0 h1 => ⟨le_max_left _ _, ?_⟩⟩
    · show c.stress + (if c.personality = .aggressive then 2 else 1) ≤ c.stress + 2
      split_ifs <;> omega
    · show max 0 (rsub c.happiness 5) ≤ 100
      refine max_le (by norm_num) ?_
      rw [rsub_eq]
      linarith
  rw [if_neg hr]
  by_cases hy : tl.state = .yellow
  · rw [if_pos hy]
    by_cases hrk : c.personality = .reckless
    · rw [if_pos hrk]
      exact ⟨rfl, rfl, rfl, rfl, Nat.le_add_right _ _, fun h0 h1 => ⟨h0, h1⟩⟩
    rw [if_neg hrk]
    by_cases hag : c.personality = .aggressive
    · rw [if_pos hag]
      exact ⟨rfl, rfl, rfl, rfl, Nat.le_add_right _ _, fun h0 h1 => ⟨h0, h1⟩⟩
    · rw [if_neg hag]
      exact ⟨rfl, rfl, rfl, rfl, Nat.le_add_right _ _, fun h0 h1 => ⟨h0, h1⟩⟩
  · rw [if_neg hy]
    exact ⟨rfl, rfl, rfl, rfl, Nat.le_add_right _ _, fun h0 h1 => ⟨h0, h1⟩⟩

/-- `negotiate_passage` touches only the initiator's memory and
happiness; the new happiness is clamped into `[0,100]`
unconditionally. -/
theorem negotiate_passage_self_fields (c o : Car) (r : RS) :
    (negotiate_passage c o r).2.1.stress = c.stress ∧
    (negotiate_passage c o r).2.1.position = c.position ∧
    (negotiate_passage c o r).2.1.path = c.path ∧
    (negotiate_passage c o r).2.1.personality = c.personality ∧
    (negotiate_passage c o r).2.1.destination = c.destination ∧
    (negotiate_passage c o r).2.1.waiting_time = c.waiting_time ∧
    0 ≤ (negotiate_passage c o r).2.1.happiness ∧
    (negotiate_passage c o r).2.1.happiness ≤ 100 := by
  unfold negotiate_passage
  dsimp only
  split_ifs <;>
    exact ⟨rfl, rfl, rfl, rfl, rfl, rfl,
      le_min (by norm_num) (le_max_left _ _), min_le_left _ _⟩

/-- Field effects of the car-interaction gate. -/
theorem handle_car_interaction_fields (w : World) (c : Car) (p : Pos) (r : RS) :
    (handle_car_interaction w c p r).2.1.position = c.position ∧
    (handle_car_interaction w c p r).2.1.path = c.path ∧
    (handle_car_interaction w c p r).2.1.personality = c.personality ∧
    (handle_car_interaction w c p r).2.1.destination = c.destination ∧
    (handle_car_interaction w c p r).2.1.stress ≤ max c.stress 100 ∧
    (0 ≤ (handle_car_interaction w c p r).2.1.happiness ∧
      (handle_car_interaction w c p r).2.1.happiness ≤ 100 ∨
      (handle_car_interaction w c p r).2.1.happiness = c.happiness) := by
  unfold handle_car_interaction
  cases hC : carAt w p with
  | none => exact ⟨rfl, rfl, rfl, rfl, le_max_left _ _, Or.inr rfl⟩
  | some oc =>
    obtain ⟨hs, hpos, hpath, hpers, hdest, hwait, hh0, hh1⟩ :=
      negotiate_passage_self_fields c oc r
    dsimp only
    rcases hXeq : negotiate_passage c oc r with ⟨res, cs, o2, r2⟩
    rw [hXeq] at hs hpos hpath hpers hdest hwait hh0 hh1
    dsimp only at hs hpos hpath hpers hdest hwait hh0 hh1 ⊢
    split_ifs with hneg
    · exact ⟨hpos, hpath, hpers, hdest, le_of_eq_of_le hs (le_max_left _ _),
        Or.inl ⟨hh0, hh1⟩⟩
    · refine ⟨hpos, hpath, hpers, hdest, ?_, Or.inl ⟨le_max_left _ _, ?_⟩⟩
      · rw [hs]
        exact le_max_of_le_right (min_le_left _ _)
      · refine max_le (by norm_num) ?_
        rw [rsub_eq]
        linarith

/-- Field effects of a committed move. -/
theorem update_position_metrics_fields (c : Car) (p : Pos) :
    (update_position_metrics c p).position = p ∧
    (update_position_metrics c p).path = c.path.tail ∧
    (update_position_metrics c p).personality = c.personality ∧
    (update_position_metrics c p).destination = c.destination ∧
    (update_position_metrics c p).stress ≤ c.stress ∧
    (0 ≤ c.happiness → c.happiness ≤ 100 →
      0 ≤ (update_position_metrics c p).happiness ∧
      (update_position_metrics c p).happiness ≤ 100) := by
  unfold update_position_metrics
  dsimp only
  rw [if_neg (lt_irrefl p.1)]
  refine ⟨rfl, rfl, rfl, rfl, ?_, fun h0 h1 => ⟨?_, min_le_left _ _⟩⟩
  · show max 0 (c.stress - 1) ≤ c.stress
    rw [max_eq_right (Nat.zero_le _)]
    omega
  · show (0 : Rat) ≤ min 100 (radd c.happiness 5)
    refine le_min (by norm_num) ?_
    rw [radd_eq]
    linarith

/-- Field effects of the arrival bonus. -/
theorem arrive_at_destination_fields (w : World) (c : Car) :
    (arrive_at_destination w c).position = c.position ∧
    (arrive_at_destination w c).personality = c.personality ∧
    (arrive_at_destination w c).destination = c.destination ∧
    (arrive_at_destination w c).stress ≤ c.stress ∧
    (0 ≤ c.happiness → c.happiness ≤ 100 →
      0 ≤ (arrive_at_destination w c).happiness ∧
      (arrive_at_destination w c).happiness ≤ 100) := by
  unfold arrive_at_destination
  dsimp only
  refine ⟨rfl, rfl, rfl, ?_, fun h0 h1 => ⟨?_, min_le_left _ _⟩⟩
  · show max 0 (c.stress - 10) ≤ c.stress
    rw [max_eq_right (Nat.zero_le _)]
    omega
  · show (0 : Rat) ≤ min 100 (radd c.happiness 20)
    refine le_min (by norm_num) ?_
    rw [radd_eq]
    linarith

/-- Field effects of the blocked-movement penalty: stress is clamped to
100 and then bumped by at most 2 (unclamped for aggressive drivers). -/
theorem handle_blocked_movement_fields (w : World) (c : Car) :
    (handle_blocked_movement w c).position = c.position ∧
    (handle_blocked_movement w c).personality = c.personality ∧
    (handle_blocked_movement w c).destination = c.destination ∧
    (handle_blocked_movement w c).stress ≤ 102 ∧
    (0 ≤ c.happiness → c.happiness ≤ 100 →
      0 ≤ (handle_blocked_movement w c).happiness ∧
      (handle_blocked_movement w c).happiness ≤ 100) := by
  have hstress : ∀ b : Nat, b ≤ 2 → min 100 (c.stress + 2) + b ≤ 102 := by
    intro b hb
    have h1 : min 100 (c.stress + 2) ≤ 100 := min_le_left _ _
    omega
  have hhap : 0 ≤ c.happiness → c.happiness ≤ 100 →
      (0 ≤ max 0 (rsub c.happiness 3) ∧ max 0 (rsub c.happiness 3) ≤ 100) := by
    intro h0 h1
    refine ⟨le_max_left _ _, max_le (by norm_num) ?_⟩
    rw [rsub_eq]
    linarith
  unfold handle_blocked_movement
  dsimp only
  split_ifs <;>
    exact ⟨rfl, rfl, rfl, by first | exact hstress 2 (by norm_num) | exact hstress 0 (by norm_num),
      fun h0 h1 => hhap h0 h1⟩

/-- Master bounds for the movement block: when the car enters with
stress at most 99 (as `update_emotional_state` guarantees), it exits
with stress at most 102, happiness stays in `[0,100]`, and the final
position is either the original one or a cell the occupancy check
certified free of cars. -/
theorem step_move_phase_master (w : World) (c : Car) (r : RS)
    (hs : c.stress ≤ 99) :
    (step_move_phase w c r).1.stress ≤ 102 ∧
    (0 ≤ c.happiness → c.happiness ≤ 100 →
      0 ≤ (step_move_phase w c r).1.happiness ∧
      (step_move_phase w c r).1.happiness ≤ 100) ∧
    ((step_move_phase w c r).1.position = c.position ∨
      ¬ anyCarAt w (step_move_phase w c r).1.position) := by
  unfold step_move_phase
  by_cases hlen : c.path.length > 1
  · rw [if_pos hlen]
    dsimp only
    obtain ⟨tpos, tpath, tpers, tdest, tstress, thap⟩ :=
      handle_traffic_light_fields w c (c.path.getD 1 (0, 0)) r
    have tpass := handle_traffic_light_pass w c (c.path.getD 1 (0, 0)) r
    rcases hHT : handle_traffic_light w c (c.path.getD 1 (0, 0)) r with ⟨htb, htc, htr⟩
    rw [hHT] at tpos tpath tpers tdest tstress thap tpass
    dsimp only at tpos tpath tpers tdest tstress thap tpass ⊢
    by_cases hb : htb = true
    · rw [if_neg (not_not_intro hb)]
      have hcEq : htc = c := tpass hb
      rw [hcEq]
      obtain ⟨ipos, ipath, ipers, idest, istress, ihap⟩ :=
        handle_car_interaction_fields w c (c.path.getD 1 (0, 0)) htr
      rcases hHC : handle_car_interaction w c (c.path.getD 1 (0, 0)) htr with ⟨hcb, hcc, hcr⟩
      rw [hHC] at ipos ipath ipers idest istress ihap
      dsimp only at ipos ipath ipers idest istress ihap ⊢
      have hcc_stress : hcc.stress ≤ 100 := istress.trans (max_le (by omega) le_rfl)
      have hcc_hap : 0 ≤ c.happiness → c.happiness ≤ 100 →
          0 ≤ hcc.happiness ∧ hcc.happiness ≤ 100 := by
        intro h0 h1
        rcases ihap with h | h
        · exact h
        · rw [h]; exact ⟨h0, h1⟩
      by_cases hcby : hcb = true
      · rw [if_neg (not_not_intro hcby)]
        have cmv := can_move_to_true w hcc (c.path.getD 1 (0, 0)) hcr
        rcases hMV : can_move_to w hcc (c.path.getD 1 (0, 0)) hcr with ⟨mvb, mvr⟩
        rw [hMV] at cmv
        dsimp only at cmv ⊢
        obtain ⟨upos, upath, upers, udest, ustress, uhap⟩ :=
          update_position_metrics_fields hcc (c.path.getD 1 (0, 0))
        by_cases hmv : mvb = true
        · rw [if_pos hmv]
          by_cases harr : (update_position_metrics hcc (c.path.getD 1 (0, 0))).position =
              (update_position_metrics hcc (c.path.getD 1 (0, 0))).destination
          · rw [if_pos harr]
            obtain ⟨apos, apers, adest, astress, ahap⟩ :=
              arrive_at_destination_fields w
                (update_position_metrics hcc (c.path.getD 1 (0, 0)))
            refine ⟨(astress.trans (ustress.trans hcc_stress)).trans (by norm_num),
              ?_, Or.inr ?_⟩
            · intro h0 h1
              obtain ⟨g0, g1⟩ := hcc_hap h0 h1
              exact ahap (uhap g0 g1).1 (uhap g0 g1).2
            · rw [apos, upos]
              exact (cmv hmv).2
          · rw [if_neg harr]
            refine ⟨(ustress.trans hcc_stress).trans (by norm_num), ?_, Or.inr ?_⟩
            · intro h0 h1
              obtain ⟨g0, g1⟩ := hcc_hap h0 h1
              exact uhap g0 g1
            · rw [upos]
              exact (cmv hmv).2
        · rw [if_neg hmv]
          obtain ⟨bpos, bpers, bdest, bstress, bhap⟩ := handle_blocked_movement_fields w hcc
          refine ⟨bstress, ?_, Or.inl ?_⟩
          · intro h0 h1
            obtain ⟨g0, g1⟩ := hcc_hap h0 h1
            exact bhap g0 g1
          · rw [bpos, ipos]
      · rw [if_pos hcby]
        dsimp only
        exact ⟨hcc_stress.trans (by norm_num), hcc_hap, Or.inl ipos⟩
    · rw [if_pos hb]
      dsimp only
      exact ⟨tstress.trans (by omega), thap, Or.inl tpos⟩
  · rw [if_neg hlen]
    exact ⟨hs.trans (by norm_num), fun h0 h1 => ⟨h0, h1⟩, Or.inl rfl⟩

/-- Master bounds for one car activation (`CarAgent.step`): the car ends
the tick with stress at most 102, happiness stays in `[0,100]`, and the
car either keeps its position or certified the new cell free of cars. -/
theorem CarAgent_step_master (w : World) (c : Car) (r : RS) :
    (CarAgent_step w c r).1.stress ≤ 102 ∧
    (0 ≤ c.happiness → c.happiness ≤ 100 →
      0 ≤ (CarAgent_step w c r).1.happiness ∧
      (CarAgent_step w c r).1.happiness ≤ 100) ∧
    ((CarAgent_step w c r).1.position = c.position ∨
      ¬ anyCarAt w (CarAgent_step w c r).1.position) := by
  obtain ⟨e1h, e1s, e1p, e1pa, e1pe, e1d⟩ := update_emotional_state_fields c
  obtain ⟨n1h, n1s, n1p, n1pa, n1pe, n1d⟩ :=
    notify_traffic_light_fields w (update_emotional_state c)
  unfold CarAgent_step
  dsimp only
  set c2 := notify_traffic_light w (update_emotional_state c) with hc2
  have hc2h : c2.happiness = c.happiness := by rw [n1h, e1h]
  have hc2s : c2.stress ≤ 99 := by rw [n1s]; exact e1s
  have hc2p : c2.position = c.position := by rw [n1p, e1p]
  by_cases hA : c2.path = []
  · rw [if_pos hA]
    try dsimp only
    try rw [if_pos rfl]
    try simp only [if_true]
    try dsimp only
    by_cases hF : (find_path w c2).getD [] ≠ []
    · rw [if_pos hF]
      try dsimp only
      try rw [if_neg Bool.false_ne_true]
      try simp only [if_false]
      try dsimp only
      obtain ⟨m1, m2, m3⟩ :=
        step_move_phase_master w { c2 with path := (find_path w c2).getD [] } r hc2s
      refine ⟨m1, fun h0 h1 => m2 ?_ ?_, m3.imp (fun h => h.trans hc2p) id⟩
      · show (0 : Rat) ≤ c2.happiness
        rw [hc2h]; exact h0
      · show c2.happiness ≤ 100
        rw [hc2h]; exact h1
    · rw [if_neg hF]
      try dsimp only
      try rw [if_pos rfl]
      try simp only [if_true]
      try dsimp only
      refine ⟨?_, ?_, Or.inl ?_⟩
      · show min 100 (c2.stress + 3) ≤ 102
        omega
      · intro h0 h1
        constructor
        · show (0 : Rat) ≤ max 0 (rsub c2.happiness 5)
          exact le_max_left _ _
        · show max 0 (rsub c2.happiness 5) ≤ 100
          refine max_le (by norm_num) ?_
          rw [rsub_eq, hc2h]
          linarith
      · exact hc2p
  · rw [if_neg hA]
    by_cases hB : c2.path.length > 1
    · rw [if_pos hB]
      try dsimp only
      rcases hMV : can_move_to w c2 (c2.path.getD 1 (0, 0)) r with ⟨mv1, mv2⟩
      try dsimp only
      cases mv1 with
      | true =>
        simp only [Bool.not_true]
        try dsimp only
        try rw [if_neg Bool.false_ne_true]
        try simp only [if_false]
        try dsimp only
        try rw [if_neg Bool.false_ne_true]
        try simp only [if_false]
        try dsimp only
        obtain ⟨m1, m2, m3⟩ := step_move_phase_master w c2 mv2 hc2s
        refine ⟨m1, fun h0 h1 => m2 ?_ ?_, m3.imp (fun h => h.trans hc2p) id⟩
        · rw [hc2h]; exact h0
        · rw [hc2h]; exact h1
      | false =>
        simp only [Bool.not_false]
        try dsimp only
        try rw [if_pos rfl]
        try simp only [if_true]
        try dsimp only
        by_cases hF : (find_path w c2).getD [] ≠ []
        · rw [if_pos hF]
          try dsimp only
          try rw [if_neg Bool.false_ne_true]
          try simp only [if_false]
          try dsimp only
          obtain ⟨m1, m2, m3⟩ :=
            step_move_phase_master w { c2 with path := (find_path w c2).getD [] } mv2 hc2s
          refine ⟨m1, fun h0 h1 => m2 ?_ ?_, m3.imp (fun h => h.trans hc2p) id⟩
          · show (0 : Rat) ≤ c2.happiness
            rw [hc2h]; exact h0
          · show c2.happiness ≤ 100
            rw [hc2h]; exact h1
        · rw [if_neg hF]
          try dsimp only
          try rw [if_pos rfl]
          try simp only [if_true]
          try dsimp only
          refine ⟨?_, ?_, Or.inl ?_⟩
          · show min 100 (c2.stress + 3) ≤ 102
            omega
          · intro h0 h1
            constructor
            · show (0 : Rat) ≤ max 0 (rsub c2.happiness 5)
              exact le_max_left _ _
            · show max 0 (rsub c2.happiness 5) ≤ 100
              refine max_le (by norm_num) ?_
              rw [rsub_eq, hc2h]
              linarith
          · exact hc2p
    · rw [if_neg hB]
      try dsimp only
      try rw [if_neg Bool.false_ne_true]
      try simp only [if_false]
      try dsimp only
      try rw [if_neg Bool.false_ne_true]
      try simp only [if_false]
      try dsimp only
      obtain ⟨m1, m2, m3⟩ := step_move_phase_master w c2 r hc2s
      refine ⟨m1, fun h0 h1 => m2 ?_ ?_, m3.imp (fun h => h.trans hc2p) id⟩
      · rw [hc2h]; exact h0
      · rw [hc2h]; exact h1

/-- `getD` of a `map` with mapped default. -/
theorem getD_map {α β : Type} (f : α → β) (l : List α) (i : Nat) (d : α) :
    (l.map f).getD i (f d) = f (l.getD i d) := by
  induction l generalizing i with
  | nil => rfl
  | cons x t ih =>
    cases i with
    | zero => rfl
    | succ i => exact ih i

/-- `getD` after `set` at the written index. -/
theorem getD_set_self {α : Type} (l : List α) (k : Nat) (a d : α)
    (hk : k < l.length) : (l.set k a).getD k d = a := by
  induction l generalizing k with
  | nil => simp at hk
  | cons x t ih =>
    cases k with
    | zero => rfl
    | succ k => exact ih k (by simpa using hk)

/-- `getD` after `set` away from the written index. -/
theorem getD_set_ne {α : Type} (l : List α) (k i : Nat) (a d : α)
    (hik : i ≠ k) : (l.set k a).getD i d = l.getD i d := by
  induction l generalizing k i with
  | nil => rfl
  | cons x t ih =>
    cases k with
    | zero =>
      cases i with
      | zero => exact absurd rfl hik
      | succ i => rfl
    | succ k =>
      cases i with
      | zero => rfl
      | succ i => exact ih k i (fun h => hik (by rw [h]))

/-- Writing back an entry's own value is the identity. -/
theorem set_getD_self {α : Type} (l : List α) (k : Nat) (d : α)
    (hk : k < l.length) : l.set k (l.getD k d) = l := by
  induction l generalizing k with
  | nil => simp at hk
  | cons x t ih =>
    cases k with
    | zero => rfl
    | succ k =>
      show x :: t.set k (t.getD k d) = x :: t
      rw [ih k (by simpa using hk)]

/-- Setting an entry to a value not present in the list keeps the list
duplicate-free. -/
theorem nodup_set_of_not_mem {α : Type} (l : List α) (k : Nat) (a : α)
    (hn : l.Nodup) (ha : a ∉ l) : (l.set k a).Nodup := by
  induction l generalizing k with
  | nil => simpa using hn
  | cons x t ih =>
    cases k with
    | zero =>
      rw [List.set_cons_zero]
      rw [List.nodup_cons] at hn ⊢
      exact ⟨fun hmem => ha (List.mem_cons_of_mem x hmem), hn.2⟩
    | succ k =>
      rw [List.set_cons_succ]
      rw [List.nodup_cons] at hn ⊢
      constructor
      · intro hmem
        rcases List.mem_or_eq_of_mem_set hmem with h | h
        · exact hn.1 h
        · exact ha (by rw [← h]; exact List.mem_cons_self x t)
      · exact ih k hn.2 (fun h => ha (List.mem_cons_of_mem x h))

/-- An unoccupied cell is not one of the cars' positions. -/
theorem not_anyCarAt_position_not_mem (w : World) (p : Pos)
    (h : ¬ anyCarAt w p) : p ∉ w.cars.map Car.position := by
  intro hp
  rcases List.mem_map.mp hp with ⟨c, hc, hcp⟩
  exact h ⟨c, hc, hcp⟩

/-- Invariant induction along the car phase of the tick: folding the
schedule body over indices `k, …, k+m-1` keeps the car-list length and,
provided every car's happiness was in range and all indices below `k`
already carry the post-step bounds, establishes the post-step bounds
(happiness in `[0,100]`, stress at most 102) for every index below
`k+m`. -/
theorem stepCars_inv (m : Nat) : ∀ (k : Nat) (wr : World × RS),
    k + m = wr.1.cars.length →
    (∀ c ∈ wr.1.cars, 0 ≤ c.happiness ∧ c.happiness ≤ 100) →
    (∀ i, i < k →
      (0 ≤ (wr.1.cars.getD i default).happiness ∧
        (wr.1.cars.getD i default).happiness ≤ 100) ∧
      (wr.1.cars.getD i default).stress ≤ 102) →
    ((List.range' k m).foldl stepCarsBody wr).1.cars.length = wr.1.cars.length ∧
    (∀ i, i < k + m →
      (0 ≤ (((List.range' k m).foldl stepCarsBody wr).1.cars.getD i default).happiness ∧
        (((List.range' k m).foldl stepCarsBody wr).1.cars.getD i default).happiness ≤ 100) ∧
      (((List.range' k m).foldl stepCarsBody wr).1.cars.getD i default).stress ≤ 102) := by
  induction m with
  | zero =>
    intro k wr hlen hH hP
    exact ⟨rfl, fun i hi => hP i (by omega)⟩
  | succ m ih =>
    intro k wr hlen hH hP
    rw [List.range'_succ, List.foldl_cons]
    have hk : k < wr.1.cars.length := by omega
    obtain ⟨ms, mh, mp⟩ := CarAgent_step_master wr.1 (wr.1.cars.getD k default) wr.2
    have hmem : wr.1.cars.getD k default ∈ wr.1.cars := by
      rw [List.getD_eq_getElem _ default hk]
      exact List.getElem_mem hk
    have hset : (stepCarsBody wr k).1.cars =
        wr.1.cars.set k (CarAgent_step wr.1 (wr.1.cars.getD k default) wr.2).1 := rfl
    have hH' : ∀ c ∈ (stepCarsBody wr k).1.cars,
        0 ≤ c.happiness ∧ c.happiness ≤ 100 := by
      intro x hx
      rw [hset] at hx
      rcases List.mem_or_eq_of_mem_set hx with hx | hx
      · exact hH x hx
      · rw [hx]
        exact mh (hH _ hmem).1 (hH _ hmem).2
    have hP' : ∀ i, i < k + 1 →
        (0 ≤ ((stepCarsBody wr k).1.cars.getD i default).happiness ∧
          ((stepCarsBody wr k).1.cars.getD i default).happiness ≤ 100) ∧
        ((stepCarsBody wr k).1.cars.getD i default).stress ≤ 102 := by
      intro i hi
      by_cases hik : i = k
      · subst hik
        rw [hset, getD_set_self _ _ _ _ hk]
        exact ⟨mh (hH _ hmem).1 (hH _ hmem).2, ms⟩
      · rw [hset, getD_set_ne _ _ _ _ _ hik]
        exact hP i (by omega)
    have hlen' : (k + 1) + m = (stepCarsBody wr k).1.cars.length := by
      rw [hset, List.length_set]; omega
    obtain ⟨ihlen, ihpost⟩ := ih (k + 1) (stepCarsBody wr k) hlen' hH' hP'
    constructor
    · rw [ihlen, hset, List.length_set]
    · intro i hi
      exact ihpost i (by omega)

/-- The car phase never introduces two cars on one cell: each activation
either keeps the car's position or moves it to a cell the occupancy
check found free of cars in the live world. -/
theorem stepCars_nodup (is : List Nat) : ∀ wr : World × RS,
    (wr.1.cars.map Car.position).Nodup →
    ((is.foldl stepCarsBody wr).1.cars.map Car.position).Nodup := by
  induction is with
  | nil => intro wr h; exact h
  | cons i t ih =>
    intro wr h
    rw [List.foldl_cons]
    refine ih _ ?_
    by_cases hk : i < wr.1.cars.length
    · obtain ⟨ms, mh, mp⟩ := CarAgent_step_master wr.1 (wr.1.cars.getD i default) wr.2
      show ((wr.1.cars.set i
        (CarAgent_step wr.1 (wr.1.cars.getD i default) wr.2).1).map Car.position).Nodup
      rw [List.map_set]
      rcases mp with hsame | hfree
      · rw [hsame, show (wr.1.cars.getD i default).position =
            (wr.1.cars.map Car.position).getD i (Car.position default) from
            (getD_map Car.position wr.1.cars i default).symm,
          set_getD_self _ _ _ (by simpa using hk)]
        exact h
      · exact nodup_set_of_not_mem _ _ _ h
          (not_anyCarAt_position_not_mem wr.1 _ hfree)
    · have hcars : (stepCarsBody wr i).1.cars = wr.1.cars := by
        show wr.1.cars.set i _ = wr.1.cars
        exact List.set_eq_of_length_le (by omega)
      rw [hcars]
      exact h

/-- **C1** (corrected).  At the end of every tick every car's happiness
is still in `[0,100]` when it started there, but stress is only bounded
by 102, not 100: the red-light penalty (`stress += 2`) and the
aggressive extra penalty of `handle_blocked_movement` are applied
without clamping. -/
theorem happiness_stress_range (w : World) (r : RS)
    (h : ∀ c ∈ w.cars, 0 ≤ c.happiness ∧ c.happiness ≤ 100) :
    ∀ c ∈ (TrafficModel_step w r).1.cars,
      (0 ≤ c.happiness ∧ c.happiness ≤ 100) ∧ c.stress ≤ 102 := by
  intro c hc
  unfold TrafficModel_step at hc
  dsimp only at hc
  unfold stepCars at hc
  rw [List.range_eq_range'] at hc
  obtain ⟨flen, fpost⟩ := stepCars_inv (stepLights w).cars.length 0 (stepLights w, r)
    (by simp)
    (by show ∀ c ∈ (stepLights w).cars, 0 ≤ c.happiness ∧ c.happiness ≤ 100
        rw [stepLights_cars]; exact h)
    (fun i hi => absurd hi (Nat.not_lt_zero i))
  obtain ⟨i, hilen, hieq⟩ := List.mem_iff_getElem.mp hc
  have hi2 : i < (stepLights w).cars.length := by
    rw [flen] at hilen
    exact hilen
  have hP := fpost i (by omega)
  rw [List.getD_eq_getElem _ default hilen, hieq] at hP
  exact hP

/-- **C1 witness.**  In `worldRed` the single car starts with happiness
50 and the tick keeps its happiness in `[0,100]` and its stress at most
102. -/
theorem happiness_stress_range_witness :
    (∀ c ∈ worldRed.cars, 0 ≤ c.happiness ∧ c.happiness ≤ 100) ∧
    (∀ c ∈ (TrafficModel_step worldRed []).1.cars,
      (0 ≤ c.happiness ∧ c.happiness ≤ 100) ∧ c.stress ≤ 102) :=
  ⟨by decide, happiness_stress_range worldRed [] (by decide)⟩

/-- **C2** (confirmed).  Cell exclusivity among vehicles is preserved by
every tick: if no two cars share a cell at the start of a tick, no two
cars share a cell at its end, because every committed move targets a
cell that `can_move_to` found free of cars in the live world at commit
time. -/
theorem mutual_exclusion (w : World) (r : RS)
    (h : (w.cars.map Car.position).Nodup) :
    ((TrafficModel_step w r).1.cars.map Car.position).Nodup := by
  unfold TrafficModel_step
  dsimp only
  unfold stepCars
  refine stepCars_nodup _ _ ?_
  show ((stepLights w).cars.map Car.position).Nodup
  rw [stepLights_cars]
  exact h

/-- **C2 witness.**  The two opposing cars of `worldPair` start on
distinct cells and end the tick on distinct cells. -/
theorem mutual_exclusion_witness :
    (worldPair.cars.map Car.position).Nodup ∧
    ((TrafficModel_step worldPair []).1.cars.map Car.position).Nodup :=
  ⟨by decide, mutual_exclusion worldPair [] (by decide)⟩

/-! ## C3: reproducibility and the hidden global generator -/

/-- `listSwap` preserves length. -/
theorem listSwap_length (l : List Pos) (i j : Nat) :
    (listSwap l i j).length = l.length := by
  unfold listSwap
  rw [List.length_set, List.length_set]

/-- A Fisher-Yates step preserves the length of the carried list. -/
theorem shuffle_body_length (n : Nat) (acc : List Pos × NS) (k : Nat) :
    (shuffle_body n acc k).1.length = acc.1.length := by
  unfold shuffle_body
  dsimp only
  rw [listSwap_length]

/-- `random.shuffle` returns a list of the same length. -/
theorem random_shuffle_length (l : List Pos) (s : NS) :
    (random_shuffle l s).1.length = l.length := by
  unfold random_shuffle
  have aux : ∀ (is : List Nat) (acc : List Pos × NS),
      (is.foldl (shuffle_body l.length) acc).1.length = acc.1.length := by
    intro is
    induction is with
    | nil => intro acc; rfl
    | cons k t ih =>
      intro acc
      rw [List.foldl_cons, ih, shuffle_body_length]
  exact aux _ _

/-- Placing a car at its endpoints does not touch its personality. -/
theorem set_position_and_destination_personality (w : World) (c : Car)
    (p d : Pos) :
    (set_position_and_destination w c p d).personality = c.personality := rfl

/-- One spawn step driven by two different model streams (and possibly
different shuffled start lists of the same length) appends cars of the
same personality and leaves the global stream and the id counter in the
same state. -/
theorem spawn_body_inv (starts1 starts2 : List Pos) (d1 d2 : Int)
    (ptype : Option Personality) (st1 st2 : World × NS × NS × Nat) (i : Nat)
    (hlen : starts1.length = starts2.length)
    (hg : st1.2.2.1 = st2.2.2.1) (hu : st1.2.2.2 = st2.2.2.2)
    (hm : st1.1.cars.map Car.personality = st2.1.cars.map Car.personality) :
    (spawn_body starts1 d1 ptype st1 i).2.2.1 =
      (spawn_body starts2 d2 ptype st2 i).2.2.1 ∧
    (spawn_body starts1 d1 ptype st1 i).2.2.2 =
      (spawn_body starts2 d2 ptype st2 i).2.2.2 ∧
    (spawn_body starts1 d1 ptype st1 i).1.cars.map Car.personality =
      (spawn_body starts2 d2 ptype st2 i).1.cars.map Car.personality := by
  unfold spawn_body
  by_cases hi : i < starts1.length
  · rw [if_pos hi, if_pos (hlen ▸ hi)]
    dsimp only
    rw [hg, hu]
    refine ⟨rfl, rfl, ?_⟩
    rw [List.map_append, List.map_append, hm]
    simp only [List.map_cons, List.map_nil,
      set_position_and_destination_personality]
  · rw [if_neg hi, if_neg (hlen ▸ hi)]
    exact ⟨hg, hu, hm⟩

/-- The spawn loop keeps the two runs in lockstep on the global stream,
the id counter, and the personalities of the spawned cars. -/
theorem spawn_fold_inv (is : List Nat) :
    ∀ (starts1 starts2 : List Pos) (d1 d2 : Int) (ptype : Option Personality)
      (st1 st2 : World × NS × NS × Nat),
    starts1.length = starts2.length →
    st1.2.2.1 = st2.2.2.1 → st1.2.2.2 = st2.2.2.2 →
    st1.1.cars.map Car.personality = st2.1.cars.map Car.personality →
    (is.foldl (spawn_body starts1 d1 ptype) st1).2.2.1 =
      (is.foldl (spawn_body starts2 d2 ptype) st2).2.2.1 ∧
    (is.foldl (spawn_body starts1 d1 ptype) st1).2.2.2 =
      (is.foldl (spawn_body starts2 d2 ptype) st2).2.2.2 ∧
    (is.foldl (spawn_body starts1 d1 ptype) st1).1.cars.map Car.personality =
      (is.foldl (spawn_body starts2 d2 ptype) st2).1.cars.map Car.personality := by
  induction is with
  | nil =>
    intro starts1 starts2 d1 d2 ptype st1 st2 hlen hg hu hm
    exact ⟨hg, hu, hm⟩
  | cons i t ih =>
    intro starts1 starts2 d1 d2 ptype st1 st2 hlen hg hu hm
    rw [List.foldl_cons, List.foldl_cons]
    obtain ⟨hg2, hu2, hm2⟩ :=
      spawn_body_inv starts1 starts2 d1 d2 ptype st1 st2 i hlen hg hu hm
    exact ih starts1 starts2 d1 d2 ptype _ _ hlen hg2 hu2 hm2

/-- The two spawn arms assign personalities independently of the model
stream: only the global stream and the id counter feed them. -/
theorem create_bidirectional_personalities (n : Nat)
    (ptype : Option Personality) (w : World) (s1 s2 g : NS) (uid : Nat) :
    (create_bidirectional_cars n ptype w s1 g uid).1.cars.map Car.personality =
      (create_bidirectional_cars n ptype w s2 g uid).1.cars.map Car.personality := by
  unfold create_bidirectional_cars spawn_cars
  dsimp only
  obtain ⟨hg1, hu1, hm1⟩ := spawn_fold_inv (List.range n)
    (random_shuffle ((List.range w.height).map (fun y => ((0 : Int), (y : Int)))) s1).1
    (random_shuffle ((List.range w.height).map (fun y => ((0 : Int), (y : Int)))) s2).1
    ((w.width : Int) - 1) ((w.width : Int) - 1) ptype
    (w, (random_shuffle ((List.range w.height).map
          (fun y => (((w.width : Int) - 1), (y : Int))))
        (random_shuffle ((List.range w.height).map
          (fun y => ((0 : Int), (y : Int)))) s1).2).2, g, uid)
    (w, (random_shuffle ((List.range w.height).map
          (fun y => (((w.width : Int) - 1), (y : Int))))
        (random_shuffle ((List.range w.height).map
          (fun y => ((0 : Int), (y : Int)))) s2).2).2, g, uid)
    (by rw [random_shuffle_length, random_shuffle_length]) rfl rfl rfl
  obtain ⟨hg2, hu2, hm2⟩ := spawn_fold_inv (List.range n)
    (random_shuffle ((List.range w.height).map
      (fun y => (((w.width : Int) - 1), (y : Int))))
      (random_shuffle ((List.range w.height).map
        (fun y => ((0 : Int), (y : Int)))) s1).2).1
    (random_shuffle ((List.range w.height).map
      (fun y => (((w.width : Int) - 1), (y : Int))))
      (random_shuffle ((List.range w.height).map
        (fun y => ((0 : Int), (y : Int)))) s2).2).1
    0 0 ptype _ _
    (by rw [random_shuffle_length, random_shuffle_length]) hg1 hu1 hm1
  exact hm2

/-- **C3** (corrected).  The constructor accepts no seed and the
personality draws read the hidden global `random` module, not the
model-owned seedable generator: with the global stream held fixed, the
personalities of the spawned cars are identical for *any* two states of
the model stream, so fixing the model seed and the configuration does
not determine them. -/
theorem personalities_seed_independent (width height n : Nat)
    (ptype : Option Personality) (s1 s2 g : NS) :
    (TrafficModel_init width height n ptype s1 g).1.cars.map Car.personality =
    (TrafficModel_init width height n ptype s2 g).1.cars.map Car.personality := by
  unfold TrafficModel_init
  dsimp only
  exact create_bidirectional_personalities _ _ _ s1 s2 g _

/-- **C3 counterexample.**  Identical constructor arguments and model
stream, two states of the hidden global `random` module: the two runs
assign different personalities, so the run is not a function of seed,
configuration and placements alone. -/
theorem reproducibility_counterexample :
    (TrafficModel_init 3 1 1 none [] [0, 0, 0, 0]).1.cars.map Car.personality ≠
    (TrafficModel_init 3 1 1 none [] [1, 0, 0, 0]).1.cars.map Car.personality := by
  decide

/-! ## C8: BFS returns Manhattan-length paths -/

/-- `headI` of an append with nonempty left part. -/
theorem headI_append_of_ne_nil {α : Type} [Inhabited α] (p q : List α)
    (h : p ≠ []) : (p ++ q).headI = p.headI := by
  cases p with
  | nil => exact absurd rfl h
  | cons x t => rfl

/-- `getLast?` of a nonempty list is its `getLastD`. -/
theorem getLast?_of_ne_nil {α : Type} [Inhabited α] (p : List α) (d : α)
    (h : p ≠ []) : p.getLast? = some (p.getLastD d) := by
  cases p with
  | nil => exact absurd rfl h
  | cons x t =>
    rw [List.getLastD_eq_getLast?]
    cases hq : (x :: t).getLast? with
    | none => simp [List.getLast?_eq_none_iff] at hq
    | some a => rfl

/-- Extending a chain by one step at the end. -/
theorem chain'_concat_of {α : Type} [Inhabited α] (r : α → α → Prop)
    (p : List α) (v : α) (hc : List.Chain' r p) (hne : p ≠ [])
    (hr : r (p.getLastD default) v) : List.Chain' r (p ++ [v]) := by
  rw [List.chain'_append]
  refine ⟨hc, List.chain'_singleton v, fun x hx y hy => ?_⟩
  rw [getLast?_of_ne_nil p default hne] at hx
  simp at hx hy
  rw [← hx, ← hy]
  rw [List.getLastD_eq_getLast?] at hr
  exact hr

/-- One expansion round of `find_path`, in closed form: the selected
cells are appended to the queue as one-step path extensions and to the
visited list. -/
theorem expand_spec (w : World) (p : List Pos) :
    ∀ (ns : List Pos) (q : List (List Pos)) (vis : List Pos),
    ns.foldl (find_path_expand w p) (q, vis) =
      (q ++ (bfs_sel w vis ns).map (fun v => p ++ [v]),
        vis ++ bfs_sel w vis ns) := by
  intro ns
  induction ns with
  | nil => intro q vis; simp [bfs_sel]
  | cons v t ih =>
    intro q vis
    rw [List.foldl_cons]
    unfold bfs_sel
    by_cases h1 : v ∈ vis
    · rw [if_pos h1]
      have hstep : find_path_expand w p (q, vis) v = (q, vis) := by
        unfold find_path_expand
        dsimp only
        rw [if_pos h1]
      rw [hstep]
      exact ih q vis
    · rw [if_neg h1]
      by_cases h2 : (lightAt w v).isSome
      · rw [if_pos (Or.inl h2)]
        have hstep : find_path_expand w p (q, vis) v =
            (q ++ [p ++ [v]], vis ++ [v]) := by
          unfold find_path_expand
          dsimp only
          rw [if_neg h1, if_pos h2]
        rw [hstep, ih]
        simp
      · by_cases h3 : is_valid_position w v
        · rw [if_pos (Or.inr h3)]
          have hstep : find_path_expand w p (q, vis) v =
              (q ++ [p ++ [v]], vis ++ [v]) := by
            unfold find_path_expand
            dsimp only
            rw [if_neg h1, if_neg h2, if_pos h3]
          rw [hstep, ih]
          simp
        · rw [if_neg (fun h => h.elim h2 h3)]
          have hstep : find_path_expand w p (q, vis) v = (q, vis) := by
            unfold find_path_expand
            dsimp only
            rw [if_neg h1, if_neg h2, if_neg h3]
          rw [hstep]
          exact ih q vis

/-- Selected cells are unvisited members of the neighbour list. -/
theorem bfs_sel_subset (w : World) :
    ∀ (ns vis : List Pos) (v : Pos), v ∈ bfs_sel w vis ns →
      v ∈ ns ∧ v ∉ vis := by
  intro ns
  induction ns with
  | nil => intro vis v hv; simp [bfs_sel] at hv
  | cons u t ih =>
    intro vis v hv
    unfold bfs_sel at hv
    by_cases h1 : u ∈ vis
    · rw [if_pos h1] at hv
      obtain ⟨h2, h3⟩ := ih vis v hv
      exact ⟨List.mem_cons_of_mem u h2, h3⟩
    · rw [if_neg h1] at hv
      by_cases h2 : (lightAt w u).isSome ∨ is_valid_position w u
      · rw [if_pos h2] at hv
        rcases List.mem_cons.mp hv with h | h
        · rw [h]; exact ⟨List.mem_cons_self u t, h1⟩
        · obtain ⟨h3, h4⟩ := ih (vis ++ [u]) v h
          exact ⟨List.mem_cons_of_mem u h3,
            fun hc => h4 (List.mem_append_left _ hc)⟩
      · rw [if_neg h2] at hv
        obtain ⟨h3, h4⟩ := ih vis v hv
        exact ⟨List.mem_cons_of_mem u h3, h4⟩

/-- The visited list stays duplicate-free across one expansion round. -/
theorem bfs_sel_nodup (w : World) :
    ∀ (ns vis : List Pos), vis.Nodup → (vis ++ bfs_sel w vis ns).Nodup := by
  intro ns
  induction ns with
  | nil => intro vis h; simpa [bfs_sel] using h
  | cons u t ih =>
    intro vis h
    unfold bfs_sel
    by_cases h1 : u ∈ vis
    · rw [if_pos h1]
      exact ih vis h
    · rw [if_neg h1]
      by_cases h2 : (lightAt w u).isSome ∨ is_valid_position w u
      · rw [if_pos h2]
        have h3 : (vis ++ [u]).Nodup := by
          rw [List.nodup_append]
          exact ⟨h, List.nodup_singleton u,
            fun x hx hu => h1 (by rw [← List.mem_singleton.mp hu]; exact hx)⟩
        have h4 := ih (vis ++ [u]) h3
        rw [List.append_assoc] at h4
        exact h4
      · rw [if_neg h2]
        exact ih vis h

/-- Every neighbour ends the round visited unless it is neither a light
cell nor a valid cell. -/
theorem bfs_sel_complete (w : World) :
    ∀ (ns vis : List Pos) (v : Pos), v ∈ ns →
      v ∈ vis ++ bfs_sel w vis ns ∨
      (¬ (lightAt w v).isSome ∧ ¬ is_valid_position w v) := by
  intro ns
  induction ns with
  | nil => intro vis v hv; simp at hv
  | cons u t ih =>
    intro vis v hv
    unfold bfs_sel
    by_cases h1 : u ∈ vis
    · rw [if_pos h1]
      rcases List.mem_cons.mp hv with h | h
      · exact Or.inl (List.mem_append_left _ (by rw [h]; exact h1))
      · exact ih vis v h
    · rw [if_neg h1]
      by_cases h2 : (lightAt w u).isSome ∨ is_valid_position w u
      · rw [if_pos h2]
        rcases List.mem_cons.mp hv with h | h
        · refine Or.inl (List.mem_append_right _ ?_)
          rw [h]
          exact List.mem_cons_self u _
        · rcases ih (vis ++ [u]) v h with h3 | h3
          · refine Or.inl ?_
            rw [List.append_assoc] at h3
            rcases List.mem_append.mp h3 with h4 | h4
            · exact List.mem_append_left _ h4
            · exact List.mem_append_right _ (by
                rcases List.mem_append.mp h4 with h5 | h5
                · rw [List.mem_singleton.mp h5]
                  exact List.mem_cons_self u _
                · exact List.mem_cons_of_mem u h5)
          · exact Or.inr h3
      · rw [if_neg h2]
        rcases List.mem_cons.mp hv with h | h
        · refine Or.inr ?_
          rw [h]
          push_neg at h2
          exact h2
        · exact ih vis v h

/-- A duplicate-free list of in-bounds cells has at most `width*height`
entries. -/
theorem nodup_inBounds_length_le (w : World) (l : List Pos)
    (hn : l.Nodup) (hb : ∀ v ∈ l, inBounds w v) :
    l.length ≤ w.width * w.height := by
  classical
  have h1 : l.toFinset ⊆
      (Finset.Icc (0 : Int) ((w.width : Int) - 1)) ×ˢ
        (Finset.Icc (0 : Int) ((w.height : Int) - 1)) := by
    intro v hv
    rw [List.mem_toFinset] at hv
    obtain ⟨b1, b2, b3, b4⟩ := hb v hv
    rw [Finset.mem_product, Finset.mem_Icc, Finset.mem_Icc]
    omega
  have h2 := Finset.card_le_card h1
  rw [List.toFinset_card_of_nodup hn, Finset.card_product,
    Int.card_Icc, Int.card_Icc] at h2
  have e1 : ((w.width : Int) - 1 + 1 - 0).toNat = w.width := by omega
  have e2 : ((w.height : Int) - 1 + 1 - 0).toNat = w.height := by omega
  rw [e1, e2] at h2
  exact h2

/-- Neighbours are always in bounds (`get_neighbors` filters). -/
theorem get_neighbors_inBounds (w : World) (c : Car) (u v : Pos)
    (h : v ∈ get_neighbors w c u) : inBounds w v := by
  unfold get_neighbors at h
  dsimp only at h
  simpa using (List.mem_filter.mp h).2

/-- Every level up to the destination level is inhabited in the search
region (walking the co-accessibility edges down from the destination). -/
theorem levels_exist (w : World) (c : Car) (R : Pos → Prop)
    (setup : BfsSetup w c R) :
    ∀ d j, j + d = manhattan c.position c.destination →
      ∃ v, R v ∧ manhattan c.position v = j := by
  intro d
  induction d with
  | zero =>
    intro j hj
    exact ⟨c.destination, setup.destR, by omega⟩
  | succ d ih =>
    intro j hj
    obtain ⟨v, hv, hD⟩ := ih (j + 1) (by omega)
    have hne : v ≠ c.position := by
      intro h
      rw [h] at hD
      unfold manhattan at hD
      omega
    obtain ⟨u, hu, hDu, hmem⟩ := setup.coacc v hv hne
    exact ⟨u, hu, by omega⟩

/-- The queue cannot run empty before the destination is dequeued. -/
theorem bfs_empty_absurd (w : World) (c : Car) (R : Pos → Prop)
    (setup : BfsSetup w c R) (k : Nat) (V E : List Pos)
    (hst : BfsState w c R k [] [] V E) : False := by
  rcases Nat.lt_or_ge (manhattan c.position c.destination) k with h | h
  · exact hst.destNotE (hst.eComplete _ setup.destR h)
  · rcases Nat.eq_or_lt_of_le h with heq | hlt
    · rcases hst.kComplete _ setup.destR heq.symm with h2 | h2
      · exact hst.destNotE h2
      · simp [lasts] at h2
    · obtain ⟨v, hvR, hvD⟩ := levels_exist w c R setup
        (manhattan c.position c.destination - (k + 1)) (k + 1) (by omega)
      have hne : v ≠ c.position := by
        intro hh
        rw [hh] at hvD
        unfold manhattan at hvD
        omega
      obtain ⟨u, huR, hD, hmem⟩ := setup.coacc v hvR hne
      have huk : manhattan c.position u = k := by omega
      have huE : u ∈ E := by
        rcases hst.kComplete u huR huk with h2 | h2
        · exact h2
        · simp [lasts] at h2
      have hvV : v ∈ V := hst.eClosed u huE v hmem
      have h3 := hst.vperm.mem_iff.mp hvV
      simp [lasts] at h3
      have := hst.eLow v h3
      omega

/-- When the level-`k` frontier is exhausted, the state is a valid
level-`k+1` state. -/
theorem bfs_phase_advance (w : World) (c : Car) (R : Pos → Prop)
    (setup : BfsSetup w c R) (k : Nat) (b : List Pos) (B' : List (List Pos))
    (V E : List Pos) (hst : BfsState w c R k [] (b :: B') V E) :
    BfsState w c R (k + 1) (b :: B') [] V E := by
  refine ⟨hst.vnodup, ?_, hst.vR, ?_, ?_, ?_, ?_, ?_, hst.eClosed,
    hst.startV, hst.destNotE⟩
  · have hv := hst.vperm
    rw [List.perm_iff_count] at hv ⊢
    intro a
    have hha := hv a
    simp only [lasts, List.map_nil, List.count_append, List.count_nil] at hha ⊢
    omega
  · intro p hp
    obtain ⟨h1, h2, h3, h4, h5⟩ := hst.pathsB p hp
    exact ⟨h1, h2, by omega, by omega, h5⟩
  · intro p hp
    simp at hp
  · intro v hv
    exact (hst.eLow v hv).trans (by omega)
  · intro v hvR hvD
    rcases Nat.lt_or_ge (manhattan c.position v) k with h | h
    · exact hst.eComplete v hvR h
    · have hk : manhattan c.position v = k := by omega
      rcases hst.kComplete v hvR hk with h2 | h2
      · exact h2
      · simp [lasts] at h2
  · intro v hvR hvD
    have hne : v ≠ c.position := by
      intro h
      rw [h] at hvD
      unfold manhattan at hvD
      omega
    obtain ⟨u, huR, hD, hmem⟩ := setup.coacc v hvR hne
    have huk : manhattan c.position u = k := by omega
    have huE : u ∈ E := by
      rcases hst.kComplete u huR huk with h | h
      · exact h
      · simp [lasts] at h
    have hvV : v ∈ V := hst.eClosed u huE v hmem
    have h2 := hst.vperm.mem_iff.mp hvV
    rcases List.mem_append.mp h2 with h3 | h3
    · rcases List.mem_append.mp h3 with h4 | h4
      · exact absurd (hst.eLow v h4) (by omega)
      · simp [lasts] at h4
    · exact Or.inr h3

/-- One dequeue of the BFS loop: either the head path ends at the
destination (and has the right length by the invariant), or the round
expands it and the invariant carries to the next fuel step. -/
theorem bfs_step (w : World) (c : Car) (R : Pos → Prop)
    (setup : BfsSetup w c R) (f : Nat)
    (ih : ∀ (k : Nat) (A B : List (List Pos)) (V E : List Pos),
      BfsState w c R k A B V E →
      w.width * w.height + 1 ≤ f + E.length →
      bfs_goal w c f (A ++ B) V)
    (k : Nat) (p : List Pos) (A B : List (List Pos)) (V E : List Pos)
    (hst : BfsState w c R k (p :: A) B V E)
    (hfuel : w.width * w.height + 1 ≤ (f + 1) + E.length) :
    bfs_goal w c (f + 1) ((p :: A) ++ B) V := by
  obtain ⟨pne, phead, plen, pdist, pchain⟩ := hst.pathsA p (List.mem_cons_self p A)
  by_cases hdest : p.getLastD (0, 0) = c.destination
  · refine ⟨p, ?_, phead, hdest, ?_, pchain⟩
    · show bfsAux w c (f + 1) (p :: (A ++ B)) V = some p
      simp only [bfsAux]
      try dsimp only
      rw [if_pos hdest]
    · rw [plen]
      have hm : manhattan c.position c.destination = k := by
        rw [← hdest]
        exact pdist
      omega
  · have e1 : lasts (p :: A) = p.getLastD (0, 0) :: lasts A := rfl
    have huV : p.getLastD (0, 0) ∈ V := by
      refine hst.vperm.mem_iff.mpr ?_
      refine List.mem_append_left _ (List.mem_append_right _ ?_)
      rw [e1]
      exact List.mem_cons_self _ _
    have huR : R (p.getLastD (0, 0)) := hst.vR _ huV
    have e2 : lasts ((bfs_sel w V (get_neighbors w c (p.getLastD (0, 0)))).map
        (fun v => p ++ [v])) = bfs_sel w V (get_neighbors w c (p.getLastD (0, 0))) := by
      unfold lasts
      rw [List.map_map]
      have hpt : ∀ v ∈ bfs_sel w V (get_neighbors w c (p.getLastD (0, 0))),
          ((fun q : List Pos => q.getLastD (0, 0)) ∘ fun v => p ++ [v]) v = v := by
        intro v hv
        show (p ++ [v]).getLastD (0, 0) = v
        rw [List.getLastD_concat]
      rw [List.map_congr_left hpt]
      exact List.map_id _
    have hst' : BfsState w c R k A
        (B ++ (bfs_sel w V (get_neighbors w c (p.getLastD (0, 0)))).map
          (fun v => p ++ [v]))
        (V ++ bfs_sel w V (get_neighbors w c (p.getLastD (0, 0))))
        (E ++ [p.getLastD (0, 0)]) := by
      refine ⟨?_, ?_, ?_, ?_, ?_, ?_, ?_, ?_, ?_, ?_, ?_⟩
      · exact bfs_sel_nodup w _ V hst.vnodup
      · have hv := hst.vperm
        rw [e1] at hv
        have e3 : lasts (B ++ (bfs_sel w V (get_neighbors w c
            (p.getLastD (0, 0)))).map (fun v => p ++ [v])) =
            lasts B ++ bfs_sel w V (get_neighbors w c (p.getLastD (0, 0))) := by
          unfold lasts at e2 ⊢
          rw [List.map_append, e2]
        rw [e3]
        rw [List.perm_iff_count] at hv ⊢
        intro a
        have hha := hv a
        simp only [List.count_append, List.count_cons, List.count_nil] at hha ⊢
        omega
      · intro v hv
        rcases List.mem_append.mp hv with h | h
        · exact hst.vR v h
        · obtain ⟨hvN, h2⟩ := bfs_sel_subset w _ V v h
          exact (setup.stepR _ v huR hvN).1
      · intro q hq
        exact hst.pathsA q (List.mem_cons_of_mem p hq)
      · intro q hq
        rcases List.mem_append.mp hq with h | h
        · exact hst.pathsB q h
        · obtain ⟨v, hvS, hqv⟩ := List.mem_map.mp h
          obtain ⟨hvN, hvnotV⟩ := bfs_sel_subset w _ V v hvS
          have hDv : manhattan c.position v = k + 1 := by
            rcases (setup.stepR _ v huR hvN).2 with h2 | h2
            · rw [pdist] at h2
              exact h2
            · exfalso
              rw [pdist] at h2
              have hvE : v ∈ E :=
                hst.eComplete v (setup.stepR _ v huR hvN).1 (by omega)
              exact hvnotV (hst.vperm.mem_iff.mpr
                (List.mem_append_left _ (List.mem_append_left _ hvE)))
          rw [← hqv]
          refine ⟨?_, ?_, ?_, ?_, ?_⟩
          · intro hc
            simp at hc
          · rw [headI_append_of_ne_nil p [v] pne]
            exact phead
          · rw [List.length_append, plen]
            rfl
          · rw [List.getLastD_concat]
            exact hDv
          · refine chain'_concat_of _ p v pchain pne ?_
            show v ∈ get_neighbors w c (p.getLastD (0, 0))
            exact hvN
      · intro v hv
        rcases List.mem_append.mp hv with h | h
        · exact hst.eLow v h
        · rw [List.mem_singleton.mp h]
          exact le_of_eq pdist
      · intro v hvR hvD
        exact List.mem_append_left _ (hst.eComplete v hvR hvD)
      · intro v hvR hvD
        rcases hst.kComplete v hvR hvD with h | h
        · exact Or.inl (List.mem_append_left _ h)
        · rw [e1] at h
          rcases List.mem_cons.mp h with h2 | h2
          · refine Or.inl (List.mem_append_right _ ?_)
            rw [h2]
            exact List.mem_singleton_self _
          · exact Or.inr h2
      · intro u' hu' v hvN'
        rcases List.mem_append.mp hu' with h | h
        · exact List.mem_append_left _ (hst.eClosed u' h v hvN')
        · rw [List.mem_singleton.mp h] at hvN'
          rcases bfs_sel_complete w _ V v hvN' with h2 | h2
          · exact h2
          · have hb : inBounds w v := get_neighbors_inBounds w c _ v hvN'
            have hcar : anyCarAt w v := by
              by_contra hno
              exact h2.2 ⟨hb, hno⟩
            obtain ⟨c', hc', hcp⟩ := hcar
            rw [setup.carsingle, List.mem_singleton] at hc'
            rw [hc'] at hcp
            rw [← hcp]
            exact List.mem_append_left _ hst.startV
      · exact List.mem_append_left _ hst.startV
      · intro h
        rcases List.mem_append.mp h with h2 | h2
        · exact hst.destNotE h2
        · exact hdest (List.mem_singleton.mp h2).symm
    have hfuel' : w.width * w.height + 1 ≤
        f + (E ++ [p.getLastD (0, 0)]).length := by
      rw [List.length_append]
      simp only [List.length_singleton]
      omega
    obtain ⟨q, hq, h1, h2, h3, h4⟩ := ih k A _ _ _ hst' hfuel'
    refine ⟨q, ?_, h1, h2, h3, h4⟩
    show bfsAux w c (f + 1) (p :: (A ++ B)) V = some q
    simp only [bfsAux]
    try dsimp only
    rw [if_neg hdest]
    rw [expand_spec]
    try dsimp only
    rw [List.append_assoc]
    exact hq

/-- The BFS loop, from any invariant state with enough fuel, returns a
Manhattan-length path to the destination. -/
theorem bfs_main (w : World) (c : Car) (R : Pos → Prop)
    (setup : BfsSetup w c R) :
    ∀ (fuel k : Nat) (A B : List (List Pos)) (V E : List Pos),
    BfsState w c R k A B V E →
    w.width * w.height + 1 ≤ fuel + E.length →
    bfs_goal w c fuel (A ++ B) V := by
  intro fuel
  induction fuel with
  | zero =>
    intro k A B V E hst hfuel
    exfalso
    have hnodup : E.Nodup :=
      ((hst.vperm.nodup_iff).mp hst.vnodup).of_append_left.of_append_left
    have hEb : ∀ v ∈ E, inBounds w v := by
      intro v hv
      exact setup.subB v (hst.vR v (hst.vperm.mem_iff.mpr
        (List.mem_append_left _ (List.mem_append_left _ hv))))
    have := nodup_inBounds_length_le w E hnodup hEb
    omega
  | succ f ih =>
    intro k A B V E hst hfuel
    cases A with
    | nil =>
      cases B with
      | nil => exact (bfs_empty_absurd w c R setup k V E hst).elim
      | cons b B' =>
        have hst' := bfs_phase_advance w c R setup k b B' V E hst
        have h := bfs_step w c R setup f ih (k + 1) b B' [] V E hst' hfuel
        rw [List.append_nil] at h
        rw [List.nil_append]
        exact h
    | cons p A' =>
      exact bfs_step w c R setup f ih k p A' B V E hst hfuel

/-- Any personality whose neighbour relation admits a search region in
the sense of `BfsSetup` gets a Manhattan-length path from `find_path`. -/
theorem find_path_of_setup (w : World) (c : Car) (R : Pos → Prop)
    (setup : BfsSetup w c R) :
    ∃ p, find_path w c = some p ∧ p.headI = c.position ∧
      p.getLastD (0, 0) = c.destination ∧
      p.length = manhattan c.position c.destination + 1 ∧
      List.Chain' (fun a b => b ∈ get_neighbors w c a) p := by
  have hst : BfsState w c R 0 [[c.position]] [] [c.position] [] := by
    refine ⟨List.nodup_singleton _, ?_, ?_, ?_, ?_, ?_, ?_, ?_, ?_, ?_, ?_⟩
    · simp [lasts]
    · intro v hv
      rw [List.mem_singleton.mp hv]
      exact setup.startR
    · intro q hq
      rw [List.mem_singleton.mp hq]
      refine ⟨by simp, rfl, rfl, ?_, List.chain'_singleton _⟩
      show manhattan c.position c.position = 0
      unfold manhattan
      omega
    · intro q hq
      simp at hq
    · intro v hv
      simp at hv
    · intro v hvR hvD
      exact absurd hvD (Nat.not_lt_zero _)
    · intro v hvR hvD
      refine Or.inr ?_
      have hvp : v = c.position := by
        unfold manhattan at hvD
        have h1 : v.1 = c.position.1 ∧ v.2 = c.position.2 := by omega
        exact Prod.ext h1.1 h1.2
      rw [hvp]
      simp [lasts]
    · intro u hu
      simp at hu
    · exact List.mem_singleton_self _
    · intro h
      simp at h
  have h := bfs_main w c R setup (w.width * w.height + 1) 0
    [[c.position]] [] [c.position] [] hst (by simp)
  rw [List.append_nil] at h
  unfold bfs_goal at h
  unfold find_path
  exact h

/-- `get_neighbors` for the three free-roaming personalities: the four
axis neighbours, filtered to the grid. -/
theorem get_neighbors_free (w : World) (c : Car) (pos : Pos)
    (h : c.personality = .cooperative ∨ c.personality = .opportunistic ∨
      c.personality = .reckless) :
    get_neighbors w c pos =
      [(pos.1 + 1, pos.2), (pos.1 - 1, pos.2),
       (pos.1, pos.2 + 1), (pos.1, pos.2 - 1)].filter
        (fun p => inBounds w p) := by
  unfold get_neighbors
  rcases h with h | h | h <;> rw [h]

/-- `get_neighbors` for `aggressive`: x-branch then y-branch, both
monotone toward the destination. -/
theorem get_neighbors_aggr (w : World) (c : Car) (pos : Pos)
    (h : c.personality = .aggressive) :
    get_neighbors w c pos =
      ((if pos.1 < c.destination.1 then [(pos.1 + 1, pos.2)]
        else if pos.1 > c.destination.1 then [(pos.1 - 1, pos.2)] else []) ++
       (if pos.2 < c.destination.2 then [(pos.1, pos.2 + 1)]
        else if pos.2 > c.destination.2 then [(pos.1, pos.2 - 1)] else [])).filter
        (fun p => inBounds w p) := by
  unfold get_neighbors
  rw [h]

/-- `get_neighbors` for `cautious`: y-branch then x-branch. -/
theorem get_neighbors_caut (w : World) (c : Car) (pos : Pos)
    (h : c.personality = .cautious) :
    get_neighbors w c pos =
      ((if pos.2 < c.destination.2 then [(pos.1, pos.2 + 1)]
        else if pos.2 > c.destination.2 then [(pos.1, pos.2 - 1)] else []) ++
       (if pos.1 < c.destination.1 then [(pos.1 + 1, pos.2)]
        else if pos.1 > c.destination.1 then [(pos.1 - 1, pos.2)] else [])).filter
        (fun p => inBounds w p) := by
  unfold get_neighbors
  rw [h]

/-- Membership characterisation of the free 4-neighbourhood. -/
theorem mem_get_neighbors_free (w : World) (c : Car) (u v : Pos)
    (h : c.personality = .cooperative ∨ c.personality = .opportunistic ∨
      c.personality = .reckless) :
    v ∈ get_neighbors w c u ↔
      inBounds w v ∧
        (v = (u.1 + 1, u.2) ∨ v = (u.1 - 1, u.2) ∨
         v = (u.1, u.2 + 1) ∨ v = (u.1, u.2 - 1)) := by
  rw [get_neighbors_free w c u h]
  simp only [List.mem_filter, List.mem_cons, List.not_mem_nil, or_false,
    decide_eq_true_eq]
  tauto

/-- Membership characterisation of the monotone neighbourhoods
(`aggressive` and `cautious` give the same set, in different order). -/
theorem mem_get_neighbors_monotone (w : World) (c : Car) (u v : Pos)
    (h : c.personality = .aggressive ∨ c.personality = .cautious) :
    v ∈ get_neighbors w c u ↔
      inBounds w v ∧
        ((u.1 < c.destination.1 ∧ v = (u.1 + 1, u.2)) ∨
         (u.1 > c.destination.1 ∧ v = (u.1 - 1, u.2)) ∨
         (u.2 < c.destination.2 ∧ v = (u.1, u.2 + 1)) ∨
         (u.2 > c.destination.2 ∧ v = (u.1, u.2 - 1))) := by
  rcases h with h | h
  · rw [get_neighbors_aggr w c u h]
    simp only [List.mem_filter, List.mem_append, decide_eq_true_eq]
    constructor
    · rintro ⟨hm, hb⟩
      refine ⟨hb, ?_⟩
      rcases hm with hm | hm <;> split_ifs at hm <;> simp at hm <;> tauto
    · rintro ⟨hb, hc⟩
      refine ⟨?_, hb⟩
      rcases hc with ⟨h1, rfl⟩ | ⟨h1, rfl⟩ | ⟨h1, rfl⟩ | ⟨h1, rfl⟩
      · exact Or.inl (by rw [if_pos h1]; exact List.mem_singleton_self _)
      · exact Or.inl (by
          rw [if_neg (by omega), if_pos h1]
          exact List.mem_singleton_self _)
      · exact Or.inr (by rw [if_pos h1]; exact List.mem_singleton_self _)
      · exact Or.inr (by
          rw [if_neg (by omega), if_pos h1]
          exact List.mem_singleton_self _)
  · rw [get_neighbors_caut w c u h]
    simp only [List.mem_filter, List.mem_append, decide_eq_true_eq]
    constructor
    · rintro ⟨hm, hb⟩
      refine ⟨hb, ?_⟩
      rcases hm with hm | hm <;> split_ifs at hm <;> simp at hm <;> tauto
    · rintro ⟨hb, hc⟩
      refine ⟨?_, hb⟩
      rcases hc with ⟨h1, rfl⟩ | ⟨h1, rfl⟩ | ⟨h1, rfl⟩ | ⟨h1, rfl⟩
      · exact Or.inr (by rw [if_pos h1]; exact List.mem_singleton_self _)
      · exact Or.inr (by
          rw [if_neg (by omega), if_pos h1]
          exact List.mem_singleton_self _)
      · exact Or.inl (by rw [if_pos h1]; exact List.mem_singleton_self _)
      · exact Or.inl (by
          rw [if_neg (by omega), if_pos h1]
          exact List.mem_singleton_self _)

/-- The whole grid is a search region for the free personalities. -/
theorem setup_free (w : World) (c : Car) (hcars : w.cars = [c])
    (hpos : inBounds w c.position) (hdest : inBounds w c.destination)
    (h : c.personality = .cooperative ∨ c.personality = .opportunistic ∨
      c.personality = .reckless) :
    BfsSetup w c (fun v => inBounds w v) := by
  refine ⟨hcars, hpos, hdest, fun v hv => hv, ?_, ?_⟩
  · intro u v hu hv
    rw [mem_get_neighbors_free w c u v h] at hv
    obtain ⟨hvb, hc⟩ := hv
    refine ⟨hvb, ?_⟩
    unfold manhattan
    rcases hc with rfl | rfl | rfl | rfl <;> dsimp only <;> omega
  · intro v hv hne
    obtain ⟨a1, a2, a3, a4⟩ := hpos
    obtain ⟨b1, b2, b3, b4⟩ := hv
    have hcases : v.1 ≠ c.position.1 ∨ v.2 ≠ c.position.2 := by
      by_contra hcc
      push_neg at hcc
      exact hne (Prod.ext hcc.1 hcc.2)
    rcases hcases with hx | hy
    · rcases lt_or_gt_of_ne hx with hlt | hgt
      · refine ⟨(v.1 + 1, v.2), ⟨by omega, by omega, b3, b4⟩, ?_, ?_⟩
        · unfold manhattan
          dsimp only
          omega
        · rw [mem_get_neighbors_free w c _ v h]
          exact ⟨⟨b1, b2, b3, b4⟩,
            Or.inr (Or.inl (Prod.ext (by dsimp only; omega) rfl))⟩
      · refine ⟨(v.1 - 1, v.2), ⟨by omega, by omega, b3, b4⟩, ?_, ?_⟩
        · unfold manhattan
          dsimp only
          omega
        · rw [mem_get_neighbors_free w c _ v h]
          exact ⟨⟨b1, b2, b3, b4⟩,
            Or.inl (Prod.ext (by dsimp only; omega) rfl)⟩
    · rcases lt_or_gt_of_ne hy with hlt | hgt
      · refine ⟨(v.1, v.2 + 1), ⟨b1, b2, by omega, by omega⟩, ?_, ?_⟩
        · unfold manhattan
          dsimp only
          omega
        · rw [mem_get_neighbors_free w c _ v h]
          exact ⟨⟨b1, b2, b3, b4⟩,
            Or.inr (Or.inr (Or.inr (Prod.ext rfl (by dsimp only; omega))))⟩
      · refine ⟨(v.1, v.2 - 1), ⟨b1, b2, by omega, by omega⟩, ?_, ?_⟩
        · unfold manhattan
          dsimp only
          omega
        · rw [mem_get_neighbors_free w c _ v h]
          exact ⟨⟨b1, b2, b3, b4⟩,
            Or.inr (Or.inr (Or.inl (Prod.ext rfl (by dsimp only; omega))))⟩

/-- The start-destination box is a search region for the monotone
personalities. -/
theorem setup_monotone (w : World) (c : Car) (hcars : w.cars = [c])
    (hpos : inBounds w c.position) (hdest : inBounds w c.destination)
    (h : c.personality = .aggressive ∨ c.personality = .cautious) :
    BfsSetup w c (rectBetween c.position c.destination) := by
  obtain ⟨a1, a2, a3, a4⟩ := hpos
  obtain ⟨b1, b2, b3, b4⟩ := hdest
  refine ⟨hcars, ?_, ?_, ?_, ?_, ?_⟩
  · unfold rectBetween
    omega
  · unfold rectBetween
    omega
  · intro v hv
    obtain ⟨r1, r2, r3, r4⟩ := hv
    exact ⟨by omega, by omega, by omega, by omega⟩
  · intro u v hu hv
    rw [mem_get_neighbors_monotone w c u v h] at hv
    obtain ⟨hvb, hc⟩ := hv
    obtain ⟨r1, r2, r3, r4⟩ := hu
    unfold rectBetween
    unfold manhattan
    rcases hc with ⟨h1, rfl⟩ | ⟨h1, rfl⟩ | ⟨h1, rfl⟩ | ⟨h1, rfl⟩ <;>
      exact ⟨by dsimp only; omega, Or.inl (by dsimp only; omega)⟩
  · intro v hv hne
    obtain ⟨r1, r2, r3, r4⟩ := hv
    have hvb : inBounds w v := ⟨by omega, by omega, by omega, by omega⟩
    have hcases : v.1 ≠ c.position.1 ∨ v.2 ≠ c.position.2 := by
      by_contra hcc
      push_neg at hcc
      exact hne (Prod.ext hcc.1 hcc.2)
    rcases hcases with hx | hy
    · rcases lt_or_gt_of_ne hx with hlt | hgt
      · refine ⟨(v.1 + 1, v.2), ?_, ?_, ?_⟩
        · unfold rectBetween
          dsimp only
          omega
        · unfold manhattan
          dsimp only
          omega
        · rw [mem_get_neighbors_monotone w c _ v h]
          refine ⟨hvb, Or.inr (Or.inl ⟨by dsimp only; omega, ?_⟩)⟩
          dsimp only
          exact Prod.ext (by omega) rfl
      · refine ⟨(v.1 - 1, v.2), ?_, ?_, ?_⟩
        · unfold rectBetween
          dsimp only
          omega
        · unfold manhattan
          dsimp only
          omega
        · rw [mem_get_neighbors_monotone w c _ v h]
          refine ⟨hvb, Or.inl ⟨by dsimp only; omega, ?_⟩⟩
          dsimp only
          exact Prod.ext (by omega) rfl
    · rcases lt_or_gt_of_ne hy with hlt | hgt
      · refine ⟨(v.1, v.2 + 1), ?_, ?_, ?_⟩
        · unfold rectBetween
          dsimp only
          omega
        · unfold manhattan
          dsimp only
          omega
        · rw [mem_get_neighbors_monotone w c _ v h]
          refine ⟨hvb, Or.inr (Or.inr (Or.inr ⟨by dsimp only; omega, ?_⟩))⟩
          dsimp only
          exact Prod.ext rfl (by omega)
      · refine ⟨(v.1, v.2 - 1), ?_, ?_, ?_⟩
        · unfold rectBetween
          dsimp only
          omega
        · unfold manhattan
          dsimp only
          omega
        · rw [mem_get_neighbors_monotone w c _ v h]
          refine ⟨hvb, Or.inr (Or.inr (Or.inl ⟨by dsimp only; omega, ?_⟩))⟩
          dsimp only
          exact Prod.ext rfl (by omega)

/-- **C8** (confirmed).  On a grid whose only car is the planner itself,
with position and destination in bounds, `find_path` succeeds for every
personality and returns a neighbour-chained path from the position to
the destination whose hop count is exactly the Manhattan distance. -/
theorem find_path_manhattan (w : World) (c : Car)
    (hcars : w.cars = [c]) (hpos : inBounds w c.position)
    (hdest : inBounds w c.destination) :
    ∃ p, find_path w c = some p ∧ p.headI = c.position ∧
      p.getLastD (0, 0) = c.destination ∧
      hops p = manhattan c.position c.destination ∧
      List.Chain' (fun a b => b ∈ get_neighbors w c a) p := by
  have main : ∀ R : Pos → Prop, BfsSetup w c R →
      ∃ p, find_path w c = some p ∧ p.headI = c.position ∧
        p.getLastD (0, 0) = c.destination ∧
        hops p = manhattan c.position c.destination ∧
        List.Chain' (fun a b => b ∈ get_neighbors w c a) p := by
    intro R setup
    obtain ⟨p, h1, h2, h3, h4, h5⟩ := find_path_of_setup w c R setup
    refine ⟨p, h1, h2, h3, ?_, h5⟩
    unfold hops
    omega
  rcases hper : c.personality with _ | _ | _ | _ | _
  · exact main _ (setup_free w c hcars hpos hdest (Or.inl hper))
  · exact main _ (setup_monotone w c hcars hpos hdest (Or.inl hper))
  · exact main _ (setup_monotone w c hcars hpos hdest (Or.inr hper))
  · exact main _ (setup_free w c hcars hpos hdest (Or.inr (Or.inl hper)))
  · exact main _ (setup_free w c hcars hpos hdest (Or.inr (Or.inr hper)))

/-- **C8 witness.**  The lone cooperative car of `worldPath` (3×3 grid,
`(0,0)` to `(2,1)`) gets a path of hop count 3. -/
theorem find_path_manhattan_witness :
    (worldPath.cars = [carPath] ∧ inBounds worldPath carPath.position ∧
      inBounds worldPath carPath.destination) ∧
    (∃ p, find_path worldPath carPath = some p ∧
      p.headI = carPath.position ∧
      p.getLastD (0, 0) = carPath.destination ∧
      hops p = manhattan carPath.position carPath.destination ∧
      List.Chain' (fun a b => b ∈ get_neighbors worldPath carPath a) p) :=
  ⟨⟨rfl, by decide, by decide⟩,
    find_path_manhattan worldPath carPath rfl (by decide) (by decide)⟩

end Traffic
